import Mathlib

/-!
Verification of the MEDSL data-management pipeline (release.py, validate.py,
metadata.py) against its natural-language specification.  Python DataFrames are
embedded as Lean lists of records; pandas operations are embedded as list
functions; fallible code is embedded with `Except`/`Option`.
-/

namespace Medsl

/-! ## Lexicographic comparators

`pandas.DataFrame.sort_values` on several string columns sorts by the
lexicographic order on the tuple of column values (stable, locale-agnostic,
plain code-point comparison).  We embed that order with executable Boolean
comparators on lists.
-/

/-- Non-strict lexicographic comparison of lists: equal heads recurse, unequal
heads are decided by the strict element comparison `lt`. -/
def lexLe {α : Type} [DecidableEq α] (lt : α → α → Bool) : List α → List α → Bool
  | [], _ => true
  | _ :: _, [] => false
  | a :: as, b :: bs => if a = b then lexLe lt as bs else lt a b

/-- Strict lexicographic comparison of lists. -/
def lexLt {α : Type} [DecidableEq α] (lt : α → α → Bool) : List α → List α → Bool
  | [], [] => false
  | [], _ :: _ => true
  | _ :: _, [] => false
  | a :: as, b :: bs => if a = b then lexLt lt as bs else lt a b

/-- Strict comparison of characters by code point. -/
def chLt (a b : Char) : Bool := decide (a < b)

/-- Strict code-point lexicographic comparison of strings, as used by
numpy and pandas when sorting string columns. -/
def strLtb (a b : String) : Bool := lexLt chLt a.data b.data

/-! ## Precinct records (medsl/__init__.py, PRECINCT_COLS)

One row of release-ready precinct data.  `ReleasedRow` carries the columns that
survive into a released dataset; `PrecinctRow` additionally carries the
`dataverse` partition tag (the last entry of `PRECINCT_COLS`, dropped before
release).  Columns typed `np.float_` in `PRECINCT_COLS` are nullable numerics
and are embedded as `Option ℚ`. -/

structure ReleasedRow where
  year : Int
  stage : String
  special : Bool
  state : String
  state_postal : String
  state_fips : Int
  state_icpsr : Int
  county_name : String
  county_fips : Option ℚ
  county_ansi : Option ℚ
  county_lat : Option ℚ
  county_long : Option ℚ
  jurisdiction : String
  precinct : String
  candidate : String
  candidate_last : String
  candidate_first : String
  candidate_middle : String
  candidate_full : String
  candidate_suffix : String
  candidate_nickname : String
  candidate_fec : String
  candidate_fec_name : String
  candidate_google : String
  candidate_govtrack : String
  candidate_icpsr : Option ℚ
  candidate_maplight : String
  candidate_normalized : String
  candidate_opensecrets : String
  candidate_wikidata : String
  candidate_party : String
  office : String
  district : String
  writein : Bool
  party : String
  mode : String
  votes : Int
  deriving DecidableEq, Inhabited

/-- A row of the combined precinct dataset: the released columns plus the
`dataverse` partition tag. -/
structure PrecinctRow extends ReleasedRow where
  dataverse : String
  deriving DecidableEq, Inhabited

/-- A row of a state source CSV: the canonical columns plus whatever extra
columns the file happens to contain.  The projection
`precinct_returns[list(PRECINCT_COLS)]` in `read_precincts` silently drops the
extra columns. -/
structure RawRow extends PrecinctRow where
  extra : List (String × String)
  deriving DecidableEq, Inhabited

/-! ## Dataset Assembler (release.py, PrecinctData.read_precincts) -/

/-- Sort key of `read_precincts`:
`['dataverse', 'state', 'jurisdiction', 'precinct', 'candidate', 'party']`. -/
def sortKey (r : PrecinctRow) : List String :=
  [r.dataverse, r.state, r.jurisdiction, r.precinct, r.candidate, r.party]

/-- Row comparison used by `sort_values`: lexicographic on the sort key. -/
def rowLe (a b : PrecinctRow) : Bool := lexLe strLtb (sortKey a) (sortKey b)

/-- Stable sort of precinct rows by the fixed key, embedding
`precinct_returns.sort_values(sort_order)` (pandas multi-key sorts are stable
lexsorts; insertion sort with a non-strict comparison computes the same
function as any stable sort). -/
def sortRows (l : List PrecinctRow) : List PrecinctRow :=
  List.insertionSort (fun a b => rowLe a b = true) l

/-- Embedding of `PrecinctData.read_precincts`: concatenate the per-state
tables, project onto the canonical column list (dropping extra columns), and
sort rows by the fixed key. -/
def read_precincts (tables : List (List RawRow)) : List PrecinctRow :=
  sortRows ((tables.flatten).map RawRow.toPrecinctRow)

/-! ## Dataverse Partitioner (release.py, Dataset.__init__) -/

/-- Embedding of the subsetting in `Dataset.__init__`: keep the rows whose
`dataverse` tag is the target dataverse or `"all"`, then drop the `dataverse`
column. -/
def dataset_table (precinct_returns : List PrecinctRow) (dataverse : String) :
    List ReleasedRow :=
  ((precinct_returns.filter fun r => decide (r.dataverse ∈ [dataverse, "all"])).map
    PrecinctRow.toReleasedRow)

/-! ## Region Table Reader (release.py, PrecinctData.read_precinct_csv)

The reader is embedded over an abstract model of the state CSV file: the model
records what each possible `pd.read_csv` call on the file would produce, and
the embedding records which calls the reader performs (in order), what it
logs, and its result. -/

/-- Outcome of one typed `pd.read_csv` attempt on a state CSV. -/
inductive ReadOutcome where
  | ok (rows : List RawRow)
  | unicodeError
  | fileNotFound
  | typeError (msg : String)
  deriving DecidableEq

/-- The `pd.read_csv` calls `read_precinct_csv` can make. -/
inductive ReadCall where
  | typedDefault
  | typedLatin1
  | headerOnly
  deriving DecidableEq

/-- The logging calls in `read_precinct_csv`. -/
inductive LogEvent where
  | unicodeDecodeError
  | noFile
  | readingWithColumns (cols : List String)
  deriving DecidableEq

/-- Abstract model of one state CSV file: outcomes of the typed read with the
default encoding and with the latin1 fallback, and the column names the
diagnostic `nrows=0` header read would report. -/
structure StateCsv where
  readTyped : ReadOutcome
  readTypedLatin1 : ReadOutcome
  headerCols : List String
  deriving DecidableEq

/-- Result of `read_precinct_csv`: either a table, or an uncaught/re-raised
exception carrying its message. -/
inductive ReadResult where
  | ok (rows : List RawRow)
  | raised (msg : String)
  deriving DecidableEq

/-- Execution record of `read_precinct_csv` on one file. -/
structure ReadTrace where
  calls : List ReadCall
  logs : List LogEvent
  result : ReadResult
  deriving DecidableEq

/-- Embedding of `PrecinctData.read_precinct_csv`.  The try/except ladder:
`UnicodeDecodeError` logs and retries once with `encoding='latin1'` (a failure
of the retry propagates uncaught); `FileNotFoundError` logs and substitutes an
empty table; `ValueError` re-reads only the header row to log the column names
and re-raises the original error. -/
def read_precinct_csv (f : StateCsv) : ReadTrace :=
  match f.readTyped with
  | .ok rows => ⟨[.typedDefault], [], .ok rows⟩
  | .unicodeError =>
    match f.readTypedLatin1 with
    | .ok rows => ⟨[.typedDefault, .typedLatin1], [.unicodeDecodeError], .ok rows⟩
    | .unicodeError =>
      ⟨[.typedDefault, .typedLatin1], [.unicodeDecodeError], .raised "UnicodeDecodeError"⟩
    | .fileNotFound =>
      ⟨[.typedDefault, .typedLatin1], [.unicodeDecodeError], .raised "FileNotFoundError"⟩
    | .typeError m => ⟨[.typedDefault, .typedLatin1], [.unicodeDecodeError], .raised m⟩
  | .fileNotFound => ⟨[.typedDefault], [.noFile], .ok []⟩
  | .typeError m =>
    ⟨[.typedDefault, .headerOnly], [.readingWithColumns f.headerCols], .raised m⟩

/-! ## Release-time documentation check (release.py, Dataset.check_documentation) -/

/-- Embedding of `Dataset.check_documentation`: `true` means the accumulated
message is nonempty and a `ValueError` is raised, halting the release.
`subset_cols` is the column set of the partition table, `doc_cols` the set of
documented variable names. -/
def check_documentation (subset_cols doc_cols : Finset String) : Bool :=
  let not_in_docs := subset_cols \ doc_cols
  let not_in_data := doc_cols \ subset_cols
  decide not_in_docs.Nonempty || decide not_in_data.Nonempty

/-! ## Validation Engine (validate.py, Expectations)

DataFrames read by `validate.main` (no dtype coercion) are embedded as lists
of `VRow` records plus a column-name list.  A finding printed by
`Expectations.print_` is embedded as a `Finding`: a structured description
(mirroring the format string of the `print_` call) plus the offending values.
`print_` sorts values for display and prints only nonempty collections; the
embedding keeps first-evaluation order of the value sets and keeps the
nonemptiness condition. -/

/-- A cell value as it can appear in a finding report. -/
inductive VVal where
  | s (v : String)
  | i (v : Int)
  | q (v : ℚ)
  | b (v : Bool)
  | missing
  deriving DecidableEq

/-- A `writein` cell of a CSV read without dtype coercion: a proper Boolean or
some other raw value. -/
inductive WVal where
  | bool (b : Bool)
  | other (v : String)
  deriving DecidableEq, Inhabited

/-- One row of a state returns CSV as read by `validate.main`.  Identifier and
value columns may be missing (`None`/NaN). -/
structure VRow where
  state : Option String
  state_postal : Option String
  state_fips : Option Int
  state_icpsr : Option Int
  county_name : Option String
  county_fips : Option ℚ
  office : Option String
  precinct : Option String
  district : Option String
  candidate : Option String
  mode : String
  writein : WVal
  party : Option String
  votes : Option ℚ
  dataverse : Option String
  deriving DecidableEq, Inhabited

/-- A DataFrame under validation: its column names and its rows.  The rule
embeddings assume the columns they dereference unconditionally are present;
`cols` drives the checks that inspect `df.columns`. -/
structure VDF where
  cols : List String
  rows : List VRow
  deriving DecidableEq

/-- Structured description of one finding, mirroring the format strings passed
to `Expectations.print_` (and the one bare `print` in `candidates`). -/
inductive Desc where
  | missingColumns
  | unexpectedColumns
  | checkValues (col : String)
  | absenteeMismatch (col : String)
  | unexpectedIdValues (col : String)
  | unexpectedCountyFips
  | unexpectedCountyName
  | missingCounties
  | unexpectedSenateDistrict
  | unexpectedPresidentDistrict
  | unexpectedDistrict (office : String)
  | missingOffice
  | missingOffices
  | nullCandidates
  | writeinValues
  | missingParty
  | unexpectedParty
  | unexpectedVotes
  | unexpectedDataverse
  deriving DecidableEq

/-- One finding of the Validation Report. -/
structure Finding where
  desc : Desc
  values : List VVal
  deriving DecidableEq

/-- One row of `gazetteers/states.csv`. -/
structure StateIdRow where
  state : String
  state_postal : String
  state_fips : Int
  state_icpsr : Int
  deriving DecidableEq

/-- One row of the county gazetteer as returned by `read_gazetteer`. -/
structure CountyIdRow where
  state_postal : String
  county_fips : ℚ
  county_name : String
  deriving DecidableEq

/-- The reference data loaded in `Expectations.__init__`: documented variable
names, state and county identifier tables, the per-year race-applicability
mapping `races` (office to list of state postals), and the per-office
per-state seat counts `district_numbers`. -/
structure Refs where
  varNames : List String
  state_ids : List StateIdRow
  county_ids : List CountyIdRow
  races : List (String × List String)
  district_numbers : List (String × List (String × Int))
  deriving DecidableEq

def vOptS : Option String → VVal
  | some v => .s v
  | none => .missing

def vOptI : Option Int → VVal
  | some v => .i v
  | none => .missing

def vOptQ : Option ℚ → VVal
  | some v => .q v
  | none => .missing

def vW : WVal → VVal
  | .bool b => .b b
  | .other v => .s v

/-- Embedding of `Expectations.print_`: a finding is produced exactly when the
value collection is nonempty. -/
def emit (d : Desc) (vals : List VVal) : List Finding :=
  if vals.isEmpty then [] else [⟨d, vals⟩]

/-- ASCII lowercasing of one character, as `str.contains(..., case=False)`
applies to the patterns and values involved here. -/
def lowerChar (c : Char) : Char :=
  if 65 ≤ c.toNat ∧ c.toNat ≤ 90 then Char.ofNat (c.toNat + 32) else c

def startsWithL : List Char → List Char → Bool
  | _, [] => true
  | [], _ :: _ => false
  | a :: as, b :: bs => a = b && startsWithL as bs

def containsL : List Char → List Char → Bool
  | [], pat => pat.isEmpty
  | h :: t, pat => startsWithL (h :: t) pat || containsL t pat

/-- Case-sensitive substring test (`Series.str.contains(pat)`). -/
def containsCS (hay pat : String) : Bool := containsL hay.data pat.data

/-- Case-insensitive substring test (`Series.str.contains(pat, case=False)`). -/
def containsCI (hay pat : String) : Bool :=
  containsL (hay.data.map lowerChar) (pat.data.map lowerChar)

namespace Expectations

/-- Embedding of `Expectations.columns`: expected columns are the documented
variable names plus `dataverse`; report missing and unexpected columns. -/
def columns (refs : Refs) (df : VDF) : List Finding :=
  let expected := ("dataverse" :: refs.varNames).dedup
  let missing := expected.filter (fun c => !decide (c ∈ df.cols))
  let unexpected := df.cols.dedup.filter (fun c => !decide (c ∈ expected))
  emit .missingColumns (missing.map VVal.s) ++
    emit .unexpectedColumns (unexpected.map VVal.s)

/-- Column accessor for the four columns scanned by `Expectations.values`. -/
def colFour (col : String) (r : VRow) : Option String :=
  if col = "office" then r.office
  else if col = "precinct" then r.precinct
  else if col = "district" then r.district
  else r.candidate

/-- The red-flag substrings of `Expectations.values`. -/
def redFlagPatterns : List String :=
  ["total", "registered", "cast", "votes", "ballot", "write"]

/-- Embedding of `Expectations.values`: for each of the four scanned columns
present in the DataFrame, report the distinct values containing a red-flag
substring (case-insensitively; missing values never match); then, still inside
the per-column loop, the absentee sub-check: among rows whose `mode` does not
contain `absentee` case-insensitively, test `mode` for `absentee`
case-sensitively, and report when any row tests positive. -/
def values (df : VDF) : List Finding :=
  (["office", "precinct", "district", "candidate"].filter (fun c => decide (c ∈ df.cols))).flatMap
    fun col =>
      (redFlagPatterns.flatMap fun pat =>
        emit (.checkValues col) ((((df.rows.map (colFour col)).filter fun v =>
          match v with
          | some s => containsCI s pat
          | none => false).dedup).map vOptS)) ++
      (if (((df.rows.filter fun r => !containsCI r.mode "absentee").map
            fun r => containsCS r.mode "absentee").dedup).contains true then
        [⟨.absenteeMismatch col,
          (((df.rows.filter fun r => !containsCI r.mode "absentee").map
            fun r => containsCS r.mode "absentee").dedup).map VVal.b⟩]
       else [])

/-- Embedding of `Expectations.states`: each of the four state identifier
columns may contain only values from the state identifier table (optionally
restricted to one state postal). -/
def states (refs : Refs) (df : VDF) (valid : String) : List Finding :=
  let ids := if valid = "" then refs.state_ids
             else refs.state_ids.filter (fun i => decide (i.state_postal = valid))
  emit (.unexpectedIdValues "state")
      (((df.rows.map (·.state)).dedup.filter
        (fun v => !decide (v ∈ ids.map (fun i => some i.state)))).map vOptS) ++
    emit (.unexpectedIdValues "state_postal")
      (((df.rows.map (·.state_postal)).dedup.filter
        (fun v => !decide (v ∈ ids.map (fun i => some i.state_postal)))).map vOptS) ++
    emit (.unexpectedIdValues "state_fips")
      (((df.rows.map (·.state_fips)).dedup.filter
        (fun v => !decide (v ∈ ids.map (fun i => some i.state_fips)))).map vOptI) ++
    emit (.unexpectedIdValues "state_icpsr")
      (((df.rows.map (·.state_icpsr)).dedup.filter
        (fun v => !decide (v ∈ ids.map (fun i => some i.state_icpsr)))).map vOptI)

/-- Embedding of `Expectations.counties`: county FIPS codes and names must come
from the county reference table (optionally restricted to one state); county
names in the reference but absent from the data are reported as missing. -/
def counties (refs : Refs) (df : VDF) (state_postal : String) : List Finding :=
  let cids := if state_postal = "" then refs.county_ids
    else refs.county_ids.filter (fun c => decide (c.state_postal = state_postal))
  emit .unexpectedCountyFips
      (((df.rows.filterMap (·.county_fips)).dedup.filter
        (fun v => !decide (v ∈ cids.map (·.county_fips)))).map VVal.q) ++
    emit .unexpectedCountyName
      (((df.rows.filterMap (·.county_name)).dedup.filter
        (fun v => !decide (v ∈ cids.map (·.county_name)))).map VVal.s) ++
    emit .missingCounties
      (((cids.map (·.county_name)).dedup.filter
        (fun v => !decide (v ∈ df.rows.filterMap (·.county_name)))).map VVal.s)

/-- The valid district labels for a seat count: `['0']` for one seat, the
string integers `1..n` otherwise (`range(1, n + 1)`, empty for `n ≤ 0`). -/
def validDistricts (n : Int) : List String :=
  if n = 1 then ["0"] else (List.range' 1 n.toNat).map (fun k => toString k)

/-- The distinct non-`statewide` district labels of the rows for one exactly
matching office (the query of the US Senate / US President checks). -/
def statewideUnexpected (df : VDF) (office : String) : List (Option String) :=
  ((df.rows.filter fun r =>
    decide (r.office = some office) && !decide (r.district = some "statewide")).map
    (·.district)).dedup

/-- The distinct district labels outside the valid label set for seat count
`n`, among the deduplicated rows of one office (the per-office loop body of
`Expectations.districts`). -/
def officeUnexpected (df : VDF) (office : String) (n : Int) : List (Option String) :=
  (((df.rows.filter fun r => decide (r.office = some office)).dedup.filter fun r =>
    match r.district with
    | some d => !decide (d ∈ validDistricts n)
    | none => true).map (·.district)).dedup

/-- Per-office part of `Expectations.districts`: iterate the offices of
`district_numbers`; an office whose seat table lacks the state raises
`KeyError` (embedded as `Except.error`; findings already printed before the
raise are not modeled). -/
def districtOfficeFindings (df : VDF) (state_postal : String) :
    List (String × List (String × Int)) → Except String (List Finding)
  | [] => .ok []
  | (office, seats) :: rest =>
    match List.lookup state_postal seats with
    | none => .error ("KeyError: " ++ state_postal)
    | some n =>
      match districtOfficeFindings df state_postal rest with
      | .error e => .error e
      | .ok restFs =>
        .ok (emit (.unexpectedDistrict office) ((officeUnexpected df office n).map vOptS) ++
          restFs)

/-- Embedding of `Expectations.districts`: the US Senate check runs only when
the state is listed for `US Senate` in the race-applicability table (a missing
`US Senate` key raises `KeyError`); the US President check always runs; then
each office of `district_numbers` is checked against its valid label set. -/
def districts (refs : Refs) (df : VDF) (state_postal : String) :
    Except String (List Finding) :=
  match List.lookup "US Senate" refs.races with
  | none => .error "KeyError: US Senate"
  | some senateStates =>
    match districtOfficeFindings df state_postal refs.district_numbers with
    | .error e => .error e
    | .ok officeFindings =>
      .ok ((if state_postal ∈ senateStates then
          emit .unexpectedSenateDistrict ((statewideUnexpected df "US Senate").map vOptS)
        else []) ++
        emit .unexpectedPresidentDistrict ((statewideUnexpected df "US President").map vOptS) ++
        officeFindings)

/-- Embedding of `Expectations.offices`: report a wholly absent US President
office, and report the offices the race-applicability table expects in this
state that have no rows. -/
def offices (refs : Refs) (df : VDF) (state_postal : String) : List Finding :=
  let officeVals := df.rows.map (·.office)
  (if decide (some "US President" ∈ officeVals) then []
   else [⟨.missingOffice, [.s "US President"]⟩]) ++
    emit .missingOffices
      ((refs.races.filter fun p =>
        decide (state_postal ∈ p.2) && !decide (some p.1 ∈ officeVals)).map
        (fun p => VVal.s p.1))

/-- Embedding of `Expectations.candidates`: a bare print when some row with
`writein` false has a missing candidate. -/
def candidates (df : VDF) : List Finding :=
  if (df.rows.filter fun r => decide (r.writein = .bool false)).any
      (fun r => decide (r.candidate = none))
  then [⟨.nullCandidates, []⟩] else []

/-- Embedding of `Expectations.writein`: report the distinct `writein` values
when some value is not a proper Boolean. -/
def writein (df : VDF) : List Finding :=
  if df.rows.all fun r => decide (r.writein = .bool true ∨ r.writein = .bool false)
  then [] else [⟨.writeinValues, (df.rows.map (·.writein)).dedup.map vW⟩]

/-- Embedding of `Expectations.parties`: report each absent major party, and
the known-incorrect spelling `democrat` when present. -/
def parties (df : VDF) : List Finding :=
  let partyVals := df.rows.map (·.party)
  emit .missingParty
      ((["republican", "democratic"].filter fun p => !decide (some p ∈ partyVals)).map VVal.s) ++
    (if decide (some "democrat" ∈ partyVals) then [⟨.unexpectedParty, [.s "democrat"]⟩] else [])

/-- Python `x % 1` on a real number: the fractional part `x - floor x`. -/
def pythonMod1 (q : ℚ) : ℚ := q - ⌊q⌋

/-- Embedding of `Expectations.votes`:
`df.votes[df.votes.astype(np.float_) % 1 != 0]` — report the votes values
whose fractional part is nonzero; a missing value becomes NaN, and `NaN % 1
!= 0` holds, so missing values are reported. -/
def votes (df : VDF) : List Finding :=
  emit .unexpectedVotes (((df.rows.map (·.votes)).filter fun v =>
    match v with
    | some q => !decide (pythonMod1 q = 0)
    | none => true).map vOptQ)

/-- The fixed set of valid `dataverse` tags. -/
def expected_dataverses : List String :=
  ["president", "senate", "house", "state", "local", "all"]

/-- Embedding of `Expectations.dataverse`: report every tag value outside the
fixed enumerated set (missing tags are outside the set). -/
def dataverse (df : VDF) : List Finding :=
  emit .unexpectedDataverse (((df.rows.map (·.dataverse)).filter fun v =>
    match v with
    | some s => !decide (s ∈ expected_dataverses)
    | none => true).map vOptS)

/-- Embedding of `Expectations.check`: the full rule battery, concatenating
the findings of the ten rules it invokes, in order. -/
def check (refs : Refs) (df : VDF) (state_postal : String) :
    Except String (List Finding) :=
  match districts refs df state_postal with
  | .error e => .error e
  | .ok d =>
    .ok (columns refs df ++ values df ++ states refs df state_postal ++
      counties refs df state_postal ++ d ++ offices refs df state_postal ++
      candidates df ++ writein df ++ parties df ++ votes df)

end Expectations

/-! ## Constituency Reconciliation (validate.py, Summary._compare_aggregates)

The candidate-name normalization applies, in order, the regex substitution
`([^,]+), ([^,]+)` to `\2 \1` (reorder a last-first form), the regex
substitution ` [A-Z]\. ` to a single space (collapse a middle initial), and
two literal replacements.  The two regexes are embedded as direct scans with
`re.sub` semantics: leftmost match, greedy comma-free groups, scanning resumes
after the replaced span. -/

/-- Embedding of `re.sub('([^,]+), ([^,]+)', '\\2 \\1', s)`, fuelled to make
the scan structurally recursive (every recursive call strictly shortens the
list, so fuel `s.length` never runs out).  A match is a maximal nonempty
comma-free run, a literal comma-space, and a nonempty comma-free run; the two
runs are swapped around a space, and scanning resumes after the match. -/
def subLFAux : Nat → List Char → List Char
  | 0, s => s
  | fuel + 1, s =>
    match s with
    | [] => []
    | c :: t =>
      let run1 := s.takeWhile (· ≠ ',')
      match s.dropWhile (· ≠ ',') with
      | ',' :: ' ' :: rest2 =>
        if run1.isEmpty then
          -- the string starts with the comma; no match can start on a comma
          c :: subLFAux fuel t
        else
          let run2 := rest2.takeWhile (· ≠ ',')
          if run2.isEmpty then
            -- no match starting in `run1`; the next candidate start is the space
            run1 ++ [','] ++ subLFAux fuel (' ' :: rest2)
          else
            run2 ++ ' ' :: run1 ++ subLFAux fuel (rest2.dropWhile (· ≠ ','))
      | ',' :: t2 =>
        -- comma not followed by a space: no match starts in `run1` or on the comma
        run1 ++ [','] ++ subLFAux fuel t2
      | _ => s

/-- The last-first reordering substitution on a whole string. -/
def subLF (s : List Char) : List Char := subLFAux s.length s

/-- Embedding of `re.sub(' [A-Z]\\. ', ' ', s)`: a space, an uppercase letter, a
period and a space collapse to a single space; scanning resumes after the
match. -/
def subInitial : List Char → List Char
  | ' ' :: u :: '.' :: ' ' :: rest =>
    if 'A' ≤ u ∧ u ≤ 'Z' then ' ' :: subInitial rest
    else ' ' :: subInitial (u :: '.' :: ' ' :: rest)
  | c :: t => c :: subInitial t
  | [] => []

/-- Scanner for `replaceAllL`: with `skip = 0` test for the pattern at the
current position; a match emits the replacement and skips the rest of the
matched span. -/
def replaceAllLAux (pat repl : List Char) : Nat → List Char → List Char
  | _, [] => []
  | 0, c :: t =>
    if startsWithL (c :: t) pat then repl ++ replaceAllLAux pat repl (pat.length - 1) t
    else c :: replaceAllLAux pat repl 0 t
  | skip + 1, _ :: t => replaceAllLAux pat repl skip t

/-- Replacement of every occurrence of a literal (nonempty) pattern, scanning
left to right and resuming after each replaced span. -/
def replaceAllL (pat repl : List Char) (s : List Char) : List Char :=
  if pat.isEmpty then s else replaceAllLAux pat repl 0 s

/-- Embedding of the candidate-name normalization chain applied to the
constituency-level data in `_compare_aggregates`, in source order: reorder
`last, first`, collapse a middle initial, strip `Estella `, and rewrite
`Roque ""Rocky""` to `Rocky`. -/
def normalizeCandidate (name : String) : String :=
  ⟨replaceAllL "Roque \"\"Rocky\"\"".data "Rocky".data
    (replaceAllL "Estella ".data "".data
      (subInitial (subLF name.data)))⟩

/-- State machine for whitespace collapsing: `prevSpace` records whether the
previous emitted character was a space. -/
def collapseWS (prevSpace : Bool) : List Char → List Char
  | [] => []
  | c :: t =>
    if c = ' ' then
      if prevSpace then collapseWS true t else ' ' :: collapseWS true t
    else c :: collapseWS false t

/-- Modelled from the spec: the claim additionally lists a whitespace-collapse
transform, absent from the source; runs of spaces collapse to one space. -/
def collapseWhitespace (s : List Char) : List Char := collapseWS false s

/-- Modelled from the spec: candidate-name normalization as the claim states
it, i.e. the source transforms followed by whitespace collapsing. -/
def normalizeCandidateClaim (name : String) : String :=
  ⟨collapseWhitespace (normalizeCandidate name).data⟩

/-- A partition row as fed to `_compare_aggregates` (already restricted to one
office family and projected to the columns it keeps).  Vote counts are
integers (`np.int_` in `PRECINCT_COLS`); the float lift pandas applies when a
column acquires NaN after the outer join is modeled with `Option`. -/
structure PRow where
  state : String
  candidate : String
  party : String
  votes : ℤ
  deriving DecidableEq

/-- A row of the constituency-level returns CSV read by
`_compare_aggregates`. -/
structure DRow where
  year : Int
  state : String
  candidate : String
  party : String
  candidatevotes : ℤ
  deriving DecidableEq

/-- A row of the totals table produced by `_compare_aggregates`. -/
structure TotalsRow where
  state : Option String
  candidate : String
  precinct_votes : Option ℤ
  district_votes : Option ℤ
  votes_diff : Option ℤ
  deriving DecidableEq

/-- Lexicographic comparison of `(state, candidate)` group keys, used because
`groupby(..., as_index=False)` sorts the group keys. -/
def pairLe (a b : String × String) : Bool := lexLe strLtb [a.1, a.2] [b.1, b.2]

/-- Embedding of `groupby(['state', 'candidate'], as_index=False).agg(sum)`:
one output row per distinct key, keys sorted, each with the sum of the votes
of its rows. -/
def groupTotals (rows : List (String × String × ℤ)) : List ((String × String) × ℤ) :=
  (List.insertionSort (fun a b => pairLe a b = true)
      (rows.map (fun r => (r.1, r.2.1))).dedup).map
    (fun k => (k, ((rows.filter (fun r => decide ((r.1, r.2.1) = k))).map
      (fun r => r.2.2)).sum))

/-- Lookup of a group key in an aggregated table (keys are distinct there). -/
def lookupTotal (ts : List ((String × String) × ℤ)) (k : String × String) : Option ℤ :=
  (ts.find? (fun t => decide (t.1 = k))).map (·.2)

/-- Embedding of `pd.merge(precinct_totals, district_totals, how='outer')` on
the key columns `['state', 'candidate']`: left rows with their matched right
total (or missing), then the unmatched right rows.  `votes_diff` is assigned
later. -/
def mergeOuter (L R : List ((String × String) × ℤ)) : List TotalsRow :=
  L.map (fun p => ⟨some p.1.1, p.1.2, some p.2, lookupTotal R p.1, none⟩) ++
    (R.filter (fun p => decide (lookupTotal L p.1 = none))).map
      (fun p => ⟨some p.1.1, p.1.2, none, some p.2, none⟩)

/-- Embedding of `Summary._compare_aggregates`: filter the constituency data to
2016 and to the states present in the partition, normalize its candidate
names, aggregate both tables to `(state, candidate)` totals, outer-join,
append the synthetic `Total` row (column sums ignoring missing values), and
assign `votes_diff = precinct_votes - district_votes` on every row (missing
propagates). -/
def compare_aggregates (precincts : List PRow) (districtsCsv : List DRow) :
    List TotalsRow :=
  let districts1 := (districtsCsv.filter (fun d => decide (d.year = 2016))).filter
      (fun d => decide (d.state ∈ precincts.map PRow.state))
  let districts2 := districts1.map
      (fun d => { d with candidate := normalizeCandidate d.candidate })
  let precinct_totals := groupTotals (precincts.map (fun p => (p.state, p.candidate, p.votes)))
  let district_totals := groupTotals (districts2.map
      (fun d => (d.state, d.candidate, d.candidatevotes)))
  let merged := mergeOuter precinct_totals district_totals
  let totalRow : TotalsRow :=
    ⟨none, "Total", some ((merged.filterMap TotalsRow.precinct_votes).sum),
      some ((merged.filterMap TotalsRow.district_votes).sum), none⟩
  (merged ++ [totalRow]).map fun t =>
    { t with votes_diff :=
        match t.precinct_votes, t.district_votes with
        | some p, some d => some (p - d)
        | _, _ => none }

/-! ## Dataset-metadata inheritance (metadata.py, Metadata._read_dataset_yaml)

YAML mappings are embedded as association lists in insertion order; a Python
`dict` lookup is the first matching key. -/

/-- Python `k in dataset_meta`. -/
def dictContains {β : Type} (d : List (String × β)) (k : String) : Bool :=
  d.any (fun p => decide (p.1 = k))

/-- One step of the inheritance loop: `if k not in dataset_meta:
dataset_meta[k] = v` (a new key is appended in insertion order). -/
def addIfAbsent {β : Type} (d : List (String × β)) (kv : String × β) :
    List (String × β) :=
  if dictContains d kv.1 then d else d ++ [kv]

/-- Embedding of `Metadata._read_dataset_yaml`: fold the inherited files in
order, adding each key only when not already present. -/
def read_dataset_yaml {β : Type} (dataset_meta : List (String × β))
    (inherited : List (List (String × β))) : List (String × β) :=
  inherited.foldl (fun acc file => file.foldl addIfAbsent acc) dataset_meta

/-- Dictionary lookup (first matching key). -/
def dictGet {β : Type} (d : List (String × β)) (k : String) : Option β :=
  (d.find? (fun p => decide (p.1 = k))).map (·.2)

/-- Two source rows that agree on the whole sort key but differ in `votes`
(column not part of the sort key). -/
def rawTieA : RawRow := { (default : RawRow) with votes := 1 }

/-- Second row of the tying pair; same sort key as `rawTieA`, other votes. -/
def rawTieB : RawRow := { (default : RawRow) with votes := 2 }

/-- Rows with distinct sort keys, used to witness the amended C2 theorem. -/
def rawKeyA : RawRow := { (default : RawRow) with state := "AK", votes := 1 }

/-- Second row with a sort key distinct from `rawKeyA`. -/
def rawKeyB : RawRow := { (default : RawRow) with state := "AL", votes := 2 }

/-- A state CSV model whose file is absent. -/
def csvMissing : StateCsv := ⟨.fileNotFound, .fileNotFound, []⟩

/-- A state CSV model that fails the default-encoding read but succeeds with
the latin1 fallback. -/
def csvLatin : StateCsv := ⟨.unicodeError, .ok [], []⟩

/-- A state CSV model whose typed read fails with a type-coercion error. -/
def csvBadType : StateCsv := ⟨.typeError "ValueError", .typeError "ValueError", ["state", "votes"]⟩

/-- A validation row whose mode text contains absentee, for the C8 witness. -/
def vrowAbsWitness : VRow :=
  { (default : VRow) with mode := "by absentee", office := some "total votes cast" }

/-! ## Concrete inputs used by the C6 and C7 theorems -/

/-- A reference set whose race table lists no state for US Senate and whose
seat-count table is empty. -/
def refsMinimal : Refs := ⟨[], [], [], [("US Senate", [])], []⟩

/-- A US Senate row with a non-statewide district label. -/
def rowSen5 : VRow :=
  { (default : VRow) with office := some "US Senate", district := some "5" }

/-- A one-row table with a US Senate row whose district is not statewide. -/
def dfC6X : VDF := ⟨[], [rowSen5]⟩

/-- References for the C6 witness: AK has a US Senate race and one State
Senate seat. -/
def refsC6W : Refs :=
  ⟨[], [], [], [("US Senate", ["AK"])], [("State Senate", [("AK", 1)])]⟩

/-- A State Senate row with the passing district label 0. -/
def rowSS0 : VRow :=
  { (default : VRow) with office := some "State Senate", district := some "0" }

/-- A State Senate row with the flagged district label 2. -/
def rowSS2 : VRow :=
  { (default : VRow) with office := some "State Senate", district := some "2" }

/-- The table for the C6 witness. -/
def dfC6W : VDF := ⟨[], [rowSen5, rowSS0, rowSS2]⟩

/-- A row carrying a partition tag outside the fixed enumerated set. -/
def vrowBogusTag : VRow := { (default : VRow) with dataverse := some "bogus" }

/-- A one-row table whose partition tag is invalid. -/
def dfBogusTag : VDF := ⟨["dataverse"], [vrowBogusTag]⟩

/-- A dataset metadata mapping for the C10 witness. -/
def metaBase : List (String × Nat) := [("title", 1)]

/-- Two inherited files for the C10 witness; both define `author`. -/
def metaFiles : List (List (String × Nat)) :=
  [[("title", 2), ("author", 3)], [("author", 4), ("year", 5)]]

theorem lexLe_total {α : Type} [DecidableEq α] (lt : α → α → Bool)
    (htotal : ∀ a b : α, a ≠ b → lt a b = true ∨ lt b a = true) :
    ∀ l₁ l₂ : List α, lexLe lt l₁ l₂ = true ∨ lexLe lt l₂ l₁ = true
  | [], _ => .inl rfl
  | _ :: _, [] => .inr rfl
  | a :: as, b :: bs => by
    by_cases hab : a = b
    · subst hab
      simpa [lexLe] using lexLe_total lt htotal as bs
    · have hba : b ≠ a := fun h => hab h.symm
      simpa [lexLe, hab, hba] using htotal a b hab

theorem lexLe_trans {α : Type} [DecidableEq α] (lt : α → α → Bool)
    (htrans : ∀ a b c : α, lt a b = true → lt b c = true → lt a c = true)
    (hasymm : ∀ a b : α, lt a b = true → lt b a = true → False) :
    ∀ l₁ l₂ l₃ : List α, lexLe lt l₁ l₂ = true → lexLe lt l₂ l₃ = true →
      lexLe lt l₁ l₃ = true
  | [], _, l₃ => by intro _ _; cases l₃ <;> simp [lexLe]
  | _ :: _, [], _ => by simp [lexLe]
  | _ :: _, _ :: _, [] => by
    intro _ h
    simp [lexLe] at h
  | a :: as, b :: bs, c :: cs => by
    intro h₁ h₂
    by_cases hab : a = b
    · subst hab
      simp only [lexLe, if_pos rfl] at h₁
      by_cases hac : a = c
      · subst hac
        simp only [lexLe, if_pos rfl] at h₂ ⊢
        exact lexLe_trans lt htrans hasymm as bs cs h₁ h₂
      · simp only [lexLe, if_neg hac] at h₂ ⊢
        exact h₂
    · simp only [lexLe, if_neg hab] at h₁
      by_cases hbc : b = c
      · subst hbc
        simpa [lexLe, hab] using h₁
      · simp only [lexLe, if_neg hbc] at h₂
        by_cases hac : a = c
        · subst hac
          exact (hasymm a b h₁ h₂).elim
        · simpa [lexLe, hac] using htrans a b c h₁ h₂

theorem lexLe_antisymm {α : Type} [DecidableEq α] (lt : α → α → Bool)
    (hasymm : ∀ a b : α, lt a b = true → lt b a = true → False) :
    ∀ l₁ l₂ : List α, lexLe lt l₁ l₂ = true → lexLe lt l₂ l₁ = true → l₁ = l₂
  | [], [] => by intro _ _; rfl
  | [], _ :: _ => by simp [lexLe]
  | _ :: _, [] => by simp [lexLe]
  | a :: as, b :: bs => by
    intro h₁ h₂
    by_cases hab : a = b
    · subst hab
      simp only [lexLe, if_pos rfl] at h₁ h₂
      rw [lexLe_antisymm lt hasymm as bs h₁ h₂]
    · have hba : b ≠ a := fun h => hab h.symm
      simp only [lexLe, if_neg hab] at h₁
      simp only [lexLe, if_neg hba] at h₂
      exact (hasymm a b h₁ h₂).elim

theorem lexLt_total_ne {α : Type} [DecidableEq α] (lt : α → α → Bool)
    (htotal : ∀ a b : α, a ≠ b → lt a b = true ∨ lt b a = true) :
    ∀ l₁ l₂ : List α, l₁ ≠ l₂ → lexLt lt l₁ l₂ = true ∨ lexLt lt l₂ l₁ = true
  | [], [] => by intro h; exact absurd rfl h
  | [], _ :: _ => by intro _; exact .inl rfl
  | _ :: _, [] => by intro _; exact .inr rfl
  | a :: as, b :: bs => by
    intro hne
    by_cases hab : a = b
    · subst hab
      have : as ≠ bs := fun h => hne (by rw [h])
      simpa [lexLt] using lexLt_total_ne lt htotal as bs this
    · have hba : b ≠ a := fun h => hab h.symm
      simpa [lexLt, hab, hba] using htotal a b hab

theorem lexLt_asymm {α : Type} [DecidableEq α] (lt : α → α → Bool)
    (hasymm : ∀ a b : α, lt a b = true → lt b a = true → False) :
    ∀ l₁ l₂ : List α, lexLt lt l₁ l₂ = true → lexLt lt l₂ l₁ = true → False
  | [], [] => by simp [lexLt]
  | [], _ :: _ => by simp [lexLt]
  | _ :: _, [] => by simp [lexLt]
  | a :: as, b :: bs => by
    intro h₁ h₂
    by_cases hab : a = b
    · subst hab
      simp only [lexLt, if_pos rfl] at h₁ h₂
      exact lexLt_asymm lt hasymm as bs h₁ h₂
    · have hba : b ≠ a := fun h => hab h.symm
      simp only [lexLt, if_neg hab] at h₁
      simp only [lexLt, if_neg hba] at h₂
      exact hasymm a b h₁ h₂

theorem lexLt_trans {α : Type} [DecidableEq α] (lt : α → α → Bool)
    (htrans : ∀ a b c : α, lt a b = true → lt b c = true → lt a c = true)
    (hasymm : ∀ a b : α, lt a b = true → lt b a = true → False) :
    ∀ l₁ l₂ l₃ : List α, lexLt lt l₁ l₂ = true → lexLt lt l₂ l₃ = true →
      lexLt lt l₁ l₃ = true
  | [], [], _ => by intro h₁ _; simp [lexLt] at h₁
  | [], _ :: _, [] => by intro _ h₂; simp [lexLt] at h₂
  | [], _ :: _, _ :: _ => by intro _ _; simp [lexLt]
  | _ :: _, [], _ => by intro h₁ _; simp [lexLt] at h₁
  | _ :: _, _ :: _, [] => by intro _ h₂; simp [lexLt] at h₂
  | a :: as, b :: bs, c :: cs => by
    intro h₁ h₂
    by_cases hab : a = b
    · subst hab
      simp only [lexLt, if_pos rfl] at h₁
      by_cases hac : a = c
      · subst hac
        simp only [lexLt, if_pos rfl] at h₂ ⊢
        exact lexLt_trans lt htrans hasymm as bs cs h₁ h₂
      · simp only [lexLt, if_neg hac] at h₂ ⊢
        exact h₂
    · simp only [lexLt, if_neg hab] at h₁
      by_cases hbc : b = c
      · subst hbc
        simpa [lexLt, hab] using h₁
      · simp only [lexLt, if_neg hbc] at h₂
        by_cases hac : a = c
        · subst hac
          exact (hasymm a b h₁ h₂).elim
        · simpa [lexLt, hac] using htrans a b c h₁ h₂

theorem chLt_trans (a b c : Char) (h₁ : chLt a b = true) (h₂ : chLt b c = true) :
    chLt a c = true := by
  simp only [chLt, decide_eq_true_eq] at h₁ h₂ ⊢
  exact lt_trans h₁ h₂

theorem chLt_asymm (a b : Char) (h₁ : chLt a b = true) (h₂ : chLt b a = true) : False := by
  simp only [chLt, decide_eq_true_eq] at h₁ h₂
  exact lt_asymm h₁ h₂

theorem chLt_total (a b : Char) (h : a ≠ b) : chLt a b = true ∨ chLt b a = true := by
  simp only [chLt, decide_eq_true_eq]
  exact Ne.lt_or_lt h

theorem String.data_ne {a b : String} (h : a ≠ b) : a.data ≠ b.data := by
  intro hd
  apply h
  cases a
  cases b
  simp_all

theorem strLtb_trans (a b c : String) (h₁ : strLtb a b = true) (h₂ : strLtb b c = true) :
    strLtb a c = true :=
  lexLt_trans chLt chLt_trans chLt_asymm a.data b.data c.data h₁ h₂

theorem strLtb_asymm (a b : String) (h₁ : strLtb a b = true) (h₂ : strLtb b a = true) :
    False :=
  lexLt_asymm chLt chLt_asymm a.data b.data h₁ h₂

theorem strLtb_total (a b : String) (h : a ≠ b) :
    strLtb a b = true ∨ strLtb b a = true :=
  lexLt_total_ne chLt chLt_total a.data b.data (String.data_ne h)

theorem rowLe_total (a b : PrecinctRow) : rowLe a b = true ∨ rowLe b a = true :=
  lexLe_total strLtb strLtb_total (sortKey a) (sortKey b)

theorem rowLe_trans (a b c : PrecinctRow) (h₁ : rowLe a b = true)
    (h₂ : rowLe b c = true) : rowLe a c = true :=
  lexLe_trans strLtb strLtb_trans strLtb_asymm (sortKey a) (sortKey b) (sortKey c) h₁ h₂

theorem rowLe_antisymm_key (a b : PrecinctRow) (h₁ : rowLe a b = true)
    (h₂ : rowLe b a = true) : sortKey a = sortKey b :=
  lexLe_antisymm strLtb strLtb_asymm (sortKey a) (sortKey b) h₁ h₂

/-! ## Claim theorems C1 - C4 -/

/-- C1: for every combined dataset `C` and target tag `t`, the partition
consists exactly of the rows of `C` whose tag is `t` or `"all"`, with the tag
column dropped; consequently every row tagged `"all"` appears (less the tag)
in every partition, and every partition row comes from a row of `C`. -/
theorem partition_is_exact_tag_subset (C : List PrecinctRow) (t : String) :
    (∀ x : ReleasedRow, x ∈ dataset_table C t ↔
      ∃ r ∈ C, (r.dataverse = t ∨ r.dataverse = "all") ∧ x = r.toReleasedRow) ∧
    (∀ r ∈ C, r.dataverse = "all" → r.toReleasedRow ∈ dataset_table C t) ∧
    (∀ x ∈ dataset_table C t, ∃ r ∈ C, x = r.toReleasedRow) := by
  have hmem : ∀ x : ReleasedRow, x ∈ dataset_table C t ↔
      ∃ r ∈ C, (r.dataverse = t ∨ r.dataverse = "all") ∧ x = r.toReleasedRow := by
    intro x
    simp only [dataset_table, List.mem_map, List.mem_filter, decide_eq_true_eq,
      List.mem_cons, List.not_mem_nil, or_false]
    constructor
    · rintro ⟨r, ⟨hr, hd⟩, hx⟩
      exact ⟨r, hr, hd, hx.symm⟩
    · rintro ⟨r, hr, hd, hx⟩
      exact ⟨r, ⟨hr, hd⟩, hx.symm⟩
  refine ⟨hmem, ?_, ?_⟩
  · intro r hr hall
    exact (hmem _).mpr ⟨r, hr, .inr hall, rfl⟩
  · intro x hx
    obtain ⟨r, hr, _, hx⟩ := (hmem x).mp hx
    exact ⟨r, hr, hx⟩

/-- C2 (amended): assembly is independent of the input ordering of the region
tables provided any two input rows that agree on the sort key are identical
after column projection.  (The stable sort keeps distinct tying rows in
concatenation order, so without that proviso a permutation of the input can
reorder them; see the counterexample.) -/
theorem read_precincts_perm_invariant (ts₁ ts₂ : List (List RawRow))
    (hperm : ts₁.Perm ts₂)
    (hkey : ∀ a ∈ ts₁.flatten, ∀ b ∈ ts₁.flatten,
      sortKey a.toPrecinctRow = sortKey b.toPrecinctRow →
        a.toPrecinctRow = b.toPrecinctRow) :
    read_precincts ts₁ = read_precincts ts₂ := by
  haveI htot : IsTotal PrecinctRow (fun a b => rowLe a b = true) :=
    ⟨fun a b => rowLe_total a b⟩
  haveI htr : IsTrans PrecinctRow (fun a b => rowLe a b = true) :=
    ⟨fun a b c => rowLe_trans a b c⟩
  have hp : (ts₁.flatten.map RawRow.toPrecinctRow).Perm
      (ts₂.flatten.map RawRow.toPrecinctRow) := (hperm.flatten).map _
  have hmem₁ : ∀ x ∈ read_precincts ts₁, x ∈ ts₁.flatten.map RawRow.toPrecinctRow := by
    intro x hx
    exact (List.perm_insertionSort _ _).subset hx
  have hmem₂ : ∀ x ∈ read_precincts ts₂, x ∈ ts₁.flatten.map RawRow.toPrecinctRow := by
    intro x hx
    exact hp.symm.subset ((List.perm_insertionSort _ _).subset hx)
  apply @List.Perm.eq_of_sorted _ (fun a b => rowLe a b = true)
  · intro a b ha hb hab hba
    obtain ⟨ra, hra, rfl⟩ := List.mem_map.mp (hmem₁ a ha)
    obtain ⟨rb, hrb, rfl⟩ := List.mem_map.mp (hmem₂ b hb)
    exact hkey ra hra rb hrb (rowLe_antisymm_key _ _ hab hba)
  · exact List.sorted_insertionSort _ _
  · exact List.sorted_insertionSort _ _
  · exact ((List.perm_insertionSort _ _).trans hp).trans
      (List.perm_insertionSort _ _).symm

/-- C2 (counterexample): assembling the same two one-row region tables in the
two possible orders yields different combined datasets, because the stable
sort keeps rows that tie on the sort key in concatenation order.  The claim
that assembly is byte-identical under any permutation of the input region
ordering, including for rows that tie on the sort key, is therefore false. -/
theorem read_precincts_not_order_independent :
    read_precincts [[rawTieA], [rawTieB]] ≠ read_precincts [[rawTieB], [rawTieA]] := by
  decide

/-- Witness for the amended C2 theorem at a concrete input with distinct sort
keys: permuting the input region tables leaves the assembled output
unchanged. -/
theorem read_precincts_perm_invariant_witness :
    ([[rawKeyA], [rawKeyB]] : List (List RawRow)).Perm [[rawKeyB], [rawKeyA]] ∧
    read_precincts [[rawKeyA], [rawKeyB]] = read_precincts [[rawKeyB], [rawKeyA]] :=
  ⟨by decide, read_precincts_perm_invariant _ _ (by decide) (by decide)⟩

/-- C3: the Region Table Reader logs and substitutes an empty table when the
file is absent; on an encoding failure it performs exactly one retry, with the
latin1 fallback encoding, whose table becomes the result when it succeeds; on
a type-coercion failure it performs exactly one extra header-only read, logs
the offending column names, and re-raises the original error. -/
theorem read_precinct_csv_error_policy (f : StateCsv) :
    (f.readTyped = .fileNotFound →
      (read_precinct_csv f).result = .ok [] ∧
      (read_precinct_csv f).logs = [.noFile] ∧
      (read_precinct_csv f).calls = [.typedDefault]) ∧
    (f.readTyped = .unicodeError →
      (read_precinct_csv f).calls = [.typedDefault, .typedLatin1] ∧
      (read_precinct_csv f).logs = [.unicodeDecodeError] ∧
      (∀ rows, f.readTypedLatin1 = .ok rows → (read_precinct_csv f).result = .ok rows)) ∧
    (∀ m, f.readTyped = .typeError m →
      (read_precinct_csv f).calls = [.typedDefault, .headerOnly] ∧
      (read_precinct_csv f).logs = [.readingWithColumns f.headerCols] ∧
      (read_precinct_csv f).result = .raised m) := by
  obtain ⟨rt, rl, hc⟩ := f
  cases rt <;> cases rl <;> simp [read_precinct_csv]

/-- Witness for the C3 theorem at concrete file models: the absent file yields
an empty table, the encoding failure leads to exactly the two typed read
attempts, and the coercion failure re-raises the original error after the
diagnostic header read. -/
theorem read_precinct_csv_error_policy_witness :
    (read_precinct_csv csvMissing).result = .ok [] ∧
    (read_precinct_csv csvLatin).calls = [.typedDefault, .typedLatin1] ∧
    (read_precinct_csv csvBadType).result = .raised "ValueError" :=
  ⟨((read_precinct_csv_error_policy csvMissing).1 rfl).1,
   ((read_precinct_csv_error_policy csvLatin).2.1 rfl).1,
   ((read_precinct_csv_error_policy csvBadType).2.2 "ValueError" rfl).2.2⟩

theorem mem_emit_iff {d : Desc} {vals : List VVal} {f : Finding} :
    f ∈ emit d vals ↔ vals ≠ [] ∧ f = ⟨d, vals⟩ := by
  unfold emit
  split
  · simp_all [List.isEmpty_iff]
  · rename_i h
    simp_all [List.isEmpty_iff]

theorem desc_of_mem_emit {d : Desc} {vals : List VVal} {f : Finding}
    (h : f ∈ emit d vals) : f.desc = d := by
  rw [mem_emit_iff] at h
  rw [h.2]

theorem exists_mem_emit_values_iff (d : Desc) (vals : List VVal) (x : VVal) :
    (∃ f ∈ emit d vals, x ∈ f.values) ↔ x ∈ vals := by
  unfold emit
  split
  · simp_all [List.isEmpty_iff]
  · simp

theorem vOptQ_inj {a b : Option ℚ} (h : vOptQ a = vOptQ b) : a = b := by
  cases a <;> cases b <;> simp_all [vOptQ]

theorem vOptS_inj {a b : Option String} (h : vOptS a = vOptS b) : a = b := by
  cases a <;> cases b <;> simp_all [vOptS]

theorem pythonMod1_eq_zero_iff (q : ℚ) :
    Expectations.pythonMod1 q = 0 ↔ ∃ n : ℤ, q = (n : ℚ) := by
  unfold Expectations.pythonMod1
  constructor
  · intro h
    exact ⟨⌊q⌋, (sub_eq_zero.mp h)⟩
  · rintro ⟨n, rfl⟩
    simp [Int.floor_intCast]

/-- C4: the release-time documentation check raises (halting the release) if
and only if the set of the partition's columns differs from the set of
documented variable names, i.e. iff there is an undocumented column or a
documented variable missing from the data. -/
theorem check_documentation_raises_iff (subset_cols doc_cols : Finset String) :
    check_documentation subset_cols doc_cols = true ↔ subset_cols ≠ doc_cols := by
  simp only [check_documentation, Bool.or_eq_true, decide_eq_true_eq,
    Finset.sdiff_nonempty]
  constructor
  · rintro (h | h) rfl <;> exact h (Finset.Subset.refl _)
  · intro hne
    by_contra hcon
    push_neg at hcon
    exact hne (Finset.Subset.antisymm hcon.1 hcon.2)

/-! ## Claim theorems C5 and C8 -/

/-- C5 (counterexample): a negative integral votes value, -5, is not a
non-negative integer, yet the vote-count check reports nothing for a table
containing it — the check tests only the fractional part, never the sign. -/
theorem votes_check_passes_negative :
    Expectations.votes ⟨["votes"], [{ (default : VRow) with votes := some (-5) }]⟩ = [] ∧
      ((-5 : ℚ) < 0) := by
  have h5 : Expectations.pythonMod1 (-5) = 0 := by
    unfold Expectations.pythonMod1
    have hcast : ((-5 : ℤ) : ℚ) = (-5 : ℚ) := by norm_num
    rw [← hcast, Int.floor_intCast]
    exact sub_self _
  constructor
  · simp [Expectations.votes, emit, h5]
  · norm_num

/-- C5 (amended): the vote-count check reports exactly the votes values that
are missing or not integral; in particular 100.0 passes while 100.5 and a
missing value are flagged, but negative integral values also pass. -/
theorem votes_check_reports_nonintegral (df : VDF) (v : Option ℚ) :
    (∃ f ∈ Expectations.votes df, vOptQ v ∈ f.values) ↔
      (v ∈ df.rows.map VRow.votes ∧ (v = none ∨ ∀ n : ℤ, v ≠ some (n : ℚ))) := by
  unfold Expectations.votes
  rw [exists_mem_emit_values_iff]
  constructor
  · intro h
    obtain ⟨w, hw, hweq⟩ := List.mem_map.mp h
    obtain rfl := vOptQ_inj hweq.symm
    have := List.mem_filter.mp hw
    refine ⟨this.1, ?_⟩
    rcases v with _ | q
    · exact .inl rfl
    · refine .inr ?_
      intro n hn
      have h2 := this.2
      simp only [Bool.not_eq_true', decide_eq_false_iff_not] at h2
      apply h2
      rw [pythonMod1_eq_zero_iff]
      exact ⟨n, by simpa using hn⟩
  · rintro ⟨hmem, hflag⟩
    apply List.mem_map.mpr
    refine ⟨v, List.mem_filter.mpr ⟨hmem, ?_⟩, rfl⟩
    rcases v with _ | q
    · rfl
    · rcases hflag with h | h
      · exact absurd h (by simp)
      · simp only [Bool.not_eq_true', decide_eq_false_iff_not]
        intro h0
        obtain ⟨n, rfl⟩ := (pythonMod1_eq_zero_iff q).mp h0
        exact h n rfl

/-- Witness for the amended C5 theorem: in a concrete table with votes values
100 and missing, the missing value is reported. -/
theorem votes_check_reports_nonintegral_witness :
    ∃ f ∈ Expectations.votes
        ⟨["votes"], [{ (default : VRow) with votes := some 100 },
          { (default : VRow) with votes := none }]⟩,
      vOptQ none ∈ f.values :=
  (votes_check_reports_nonintegral _ _).mpr ⟨by simp, .inl rfl⟩

theorem startsWithL_map_lower {l p : List Char} (h : startsWithL l p = true) :
    startsWithL (l.map lowerChar) (p.map lowerChar) = true := by
  induction p generalizing l with
  | nil => simp [startsWithL]
  | cons b bs ih =>
    cases l with
    | nil => simp [startsWithL] at h
    | cons a as =>
      simp only [startsWithL, Bool.and_eq_true, decide_eq_true_eq] at h
      simp only [List.map_cons, startsWithL, Bool.and_eq_true, decide_eq_true_eq]
      exact ⟨by rw [h.1], ih h.2⟩

theorem containsL_map_lower {l p : List Char} (h : containsL l p = true) :
    containsL (l.map lowerChar) (p.map lowerChar) = true := by
  induction l with
  | nil =>
    simp only [containsL] at h ⊢
    simp_all [List.isEmpty_iff]
  | cons a as ih =>
    simp only [containsL, Bool.or_eq_true] at h ⊢
    rcases h with h | h
    · exact .inl (by simpa using startsWithL_map_lower h)
    · exact .inr (ih h)

/-- A case-sensitive substring match implies a case-insensitive one. -/
theorem containsCS_imp_containsCI (hay pat : String)
    (h : containsCS hay pat = true) : containsCI hay pat = true :=
  containsL_map_lower h

/-- C8 (counterexample): a row whose mode text `ABSENTEE` contains `absentee`
case-insensitively while not containing the literal lowercase `absentee`
yields no mismatched-tagging finding: the sub-check filters with the
case-insensitive test and then tests the same column case-sensitively, so it
cannot fire. -/
theorem values_absentee_counterexample :
    (Expectations.values ⟨["office"], [{ (default : VRow) with mode := "ABSENTEE" }]⟩).all
        (fun f => match f.desc with
          | .absenteeMismatch _ => false
          | _ => true) = true ∧
      containsCI "ABSENTEE" "absentee" = true ∧
      containsCS "ABSENTEE" "absentee" = false := by
  refine ⟨?_, ?_, ?_⟩ <;> decide

/-- C8 (amended): the mismatched-tagging sub-check of the suspect-value rule
never produces a finding for any input table: it selects the rows whose mode
does not contain `absentee` case-insensitively and then tests the same mode
column case-sensitively, which can never succeed on the selected rows. -/
theorem values_never_flags_absentee_mismatch (df : VDF) (f : Finding)
    (hf : f ∈ Expectations.values df) (c : String) :
    f.desc ≠ .absenteeMismatch c := by
  unfold Expectations.values at hf
  rw [List.mem_flatMap] at hf
  obtain ⟨col, _, hin⟩ := hf
  rw [List.mem_append] at hin
  rcases hin with hin | hin
  · rw [List.mem_flatMap] at hin
    obtain ⟨pat, _, hin⟩ := hin
    rw [desc_of_mem_emit hin]
    intro h
    cases h
  · split at hin
    · rename_i hcontains
      exfalso
      rw [List.contains_eq_any_beq] at hcontains
      simp only [List.any_eq_true, beq_iff_eq] at hcontains
      obtain ⟨b, hb, rfl⟩ := hcontains
      rw [List.mem_dedup] at hb
      obtain ⟨r, hr, hcs⟩ := List.mem_map.mp hb
      have hci := List.mem_filter.mp hr
      have : containsCI r.mode "absentee" = true :=
        containsCS_imp_containsCI _ _ hcs
      simp [this] at hci
    · simp at hin

/-- Witness for the amended C8 theorem: the report for a concrete table with
an absentee-text mode contains a concrete finding, and it is not a
mismatched-tagging finding. -/
theorem values_never_flags_absentee_mismatch_witness :
    (⟨Desc.checkValues "office", [VVal.s "total votes cast"]⟩ : Finding) ∈
      Expectations.values ⟨["office"], [vrowAbsWitness]⟩ ∧
    (⟨Desc.checkValues "office", [VVal.s "total votes cast"]⟩ : Finding).desc ≠
      Desc.absenteeMismatch "office" :=
  ⟨by decide, values_never_flags_absentee_mismatch ⟨["office"], [vrowAbsWitness]⟩
    ⟨Desc.checkValues "office", [VVal.s "total votes cast"]⟩ (by decide) "office"⟩

/-! ## Helper lemmas about the rule findings -/

theorem assoc_nodup_unique {α β : Type} [DecidableEq α] {l : List (α × β)}
    (h : (l.map Prod.fst).Nodup) {k : α} {v1 v2 : β}
    (h1 : (k, v1) ∈ l) (h2 : (k, v2) ∈ l) : v1 = v2 := by
  induction l with
  | nil => cases h1
  | cons p rest ih =>
    rw [List.map_cons, List.nodup_cons] at h
    rcases List.mem_cons.mp h1 with rfl | h1 <;>
      rcases List.mem_cons.mp h2 with h2 | h2
    · injection h2 with _ h2e
      exact h2e.symm
    · exact absurd (List.mem_map.mpr ⟨_, h2, rfl⟩) h.1
    · rw [← h2] at h
      exact absurd (List.mem_map.mpr ⟨_, h1, rfl⟩) h.1
    · exact ih h.2 h1 h2

theorem districtOfficeFindings_sound {df : VDF} {sp : String}
    {l : List (String × List (String × Int))} {fs : List Finding}
    (h : Expectations.districtOfficeFindings df sp l = .ok fs) :
    ∀ f ∈ fs, ∃ office seats n, (office, seats) ∈ l ∧
      List.lookup sp seats = some n ∧
      f ∈ emit (.unexpectedDistrict office)
        ((Expectations.officeUnexpected df office n).map vOptS) := by
  induction l generalizing fs with
  | nil =>
    simp only [Expectations.districtOfficeFindings] at h
    injection h with h
    subst h
    simp
  | cons p rest ih =>
    obtain ⟨office, seats⟩ := p
    simp only [Expectations.districtOfficeFindings] at h
    split at h
    · exact absurd h (by simp)
    · rename_i n hn
      split at h
      · exact absurd h (by simp)
      · rename_i restFs hrest
        injection h with h
        subst h
        intro f hf
        rcases List.mem_append.mp hf with hf | hf
        · exact ⟨office, seats, n, List.mem_cons_self _ _, hn, hf⟩
        · obtain ⟨o, s2, n2, hmem, hlk, hin⟩ := ih hrest f hf
          exact ⟨o, s2, n2, List.mem_cons_of_mem _ hmem, hlk, hin⟩

theorem districtOfficeFindings_complete {df : VDF} {sp : String}
    {l : List (String × List (String × Int))} {fs : List Finding}
    (h : Expectations.districtOfficeFindings df sp l = .ok fs) :
    ∀ office seats n, (office, seats) ∈ l → List.lookup sp seats = some n →
      ∀ f ∈ emit (.unexpectedDistrict office)
        ((Expectations.officeUnexpected df office n).map vOptS), f ∈ fs := by
  induction l generalizing fs with
  | nil =>
    intro office seats n hmem
    cases hmem
  | cons p rest ih =>
    obtain ⟨office2, seats2⟩ := p
    simp only [Expectations.districtOfficeFindings] at h
    split at h
    · exact absurd h (by simp)
    · rename_i n2 hn2
      split at h
      · exact absurd h (by simp)
      · rename_i restFs hrest
        injection h with h
        subst h
        intro office seats n hmem hn f hf
        rcases List.mem_cons.mp hmem with heq | hmem
        · injection heq with he1 he2
          subst he1
          subst he2
          rw [hn] at hn2
          injection hn2 with hn2
          subst hn2
          exact List.mem_append_left _ hf
        · exact List.mem_append_right _ (ih hrest office seats n hmem hn f hf)

theorem districts_ok_decomp {refs : Refs} {df : VDF} {sp : String} {fs : List Finding}
    (h : Expectations.districts refs df sp = .ok fs) :
    ∃ senStates ofs, List.lookup "US Senate" refs.races = some senStates ∧
      Expectations.districtOfficeFindings df sp refs.district_numbers = .ok ofs ∧
      fs = (if sp ∈ senStates then
          emit .unexpectedSenateDistrict
            ((Expectations.statewideUnexpected df "US Senate").map vOptS)
        else []) ++
        emit .unexpectedPresidentDistrict
          ((Expectations.statewideUnexpected df "US President").map vOptS) ++ ofs := by
  unfold Expectations.districts at h
  split at h
  · exact absurd h (by simp)
  · rename_i senStates hsen
    split at h
    · exact absurd h (by simp)
    · rename_i ofs hofs
      injection h with h
      exact ⟨senStates, ofs, hsen, hofs, h.symm⟩

theorem columns_desc {refs : Refs} {df : VDF} {f : Finding}
    (h : f ∈ Expectations.columns refs df) :
    f.desc = .missingColumns ∨ f.desc = .unexpectedColumns := by
  simp only [Expectations.columns, List.mem_append] at h
  rcases h with h | h
  · exact .inl (desc_of_mem_emit h)
  · exact .inr (desc_of_mem_emit h)

theorem values_desc {df : VDF} {f : Finding} (h : f ∈ Expectations.values df) :
    (∃ c, f.desc = .checkValues c) ∨ (∃ c, f.desc = .absenteeMismatch c) := by
  simp only [Expectations.values, List.mem_flatMap, List.mem_append] at h
  obtain ⟨col, _, h⟩ := h
  rcases h with h | h
  · obtain ⟨pat, _, h⟩ := h
    exact .inl ⟨col, desc_of_mem_emit h⟩
  · split at h
    · rcases List.mem_singleton.mp h with rfl
      exact .inr ⟨col, rfl⟩
    · cases h

theorem states_desc {refs : Refs} {df : VDF} {v : String} {f : Finding}
    (h : f ∈ Expectations.states refs df v) :
    ∃ c, f.desc = .unexpectedIdValues c := by
  simp only [Expectations.states, List.mem_append] at h
  rcases h with ((h | h) | h) | h <;> exact ⟨_, desc_of_mem_emit h⟩

theorem counties_desc {refs : Refs} {df : VDF} {sp : String} {f : Finding}
    (h : f ∈ Expectations.counties refs df sp) :
    f.desc = .unexpectedCountyFips ∨ f.desc = .unexpectedCountyName ∨
      f.desc = .missingCounties := by
  simp only [Expectations.counties, List.mem_append] at h
  rcases h with (h | h) | h
  · exact .inl (desc_of_mem_emit h)
  · exact .inr (.inl (desc_of_mem_emit h))
  · exact .inr (.inr (desc_of_mem_emit h))

theorem offices_desc {refs : Refs} {df : VDF} {sp : String} {f : Finding}
    (h : f ∈ Expectations.offices refs df sp) :
    f.desc = .missingOffice ∨ f.desc = .missingOffices := by
  simp only [Expectations.offices, List.mem_append] at h
  rcases h with h | h
  · split at h
    · cases h
    · rcases List.mem_singleton.mp h with rfl
      exact .inl rfl
  · exact .inr (desc_of_mem_emit h)

theorem candidates_desc {df : VDF} {f : Finding}
    (h : f ∈ Expectations.candidates df) : f.desc = .nullCandidates := by
  unfold Expectations.candidates at h
  split at h
  · rcases List.mem_singleton.mp h with rfl
    rfl
  · cases h

theorem writein_desc {df : VDF} {f : Finding}
    (h : f ∈ Expectations.writein df) : f.desc = .writeinValues := by
  unfold Expectations.writein at h
  split at h
  · cases h
  · rcases List.mem_singleton.mp h with rfl
    rfl

theorem parties_desc {df : VDF} {f : Finding}
    (h : f ∈ Expectations.parties df) :
    f.desc = .missingParty ∨ f.desc = .unexpectedParty := by
  simp only [Expectations.parties, List.mem_append] at h
  rcases h with h | h
  · exact .inl (desc_of_mem_emit h)
  · split at h
    · rcases List.mem_singleton.mp h with rfl
      exact .inr rfl
    · cases h

theorem votes_desc {df : VDF} {f : Finding}
    (h : f ∈ Expectations.votes df) : f.desc = .unexpectedVotes :=
  desc_of_mem_emit h

theorem districts_desc {refs : Refs} {df : VDF} {sp : String} {fs : List Finding}
    (h : Expectations.districts refs df sp = .ok fs) {f : Finding} (hf : f ∈ fs) :
    f.desc = .unexpectedSenateDistrict ∨ f.desc = .unexpectedPresidentDistrict ∨
      ∃ o, f.desc = .unexpectedDistrict o := by
  obtain ⟨senStates, ofs, _, hofs, rfl⟩ := districts_ok_decomp h
  rcases List.mem_append.mp hf with hf | hf
  · rcases List.mem_append.mp hf with hf | hf
    · split at hf
      · exact .inl (desc_of_mem_emit hf)
      · cases hf
    · exact .inr (.inl (desc_of_mem_emit hf))
  · obtain ⟨o, _, _, _, _, hin⟩ := districtOfficeFindings_sound hofs f hf
    exact .inr (.inr ⟨o, desc_of_mem_emit hin⟩)

/-! ## Claim theorems C6 and C7 -/

/-- C6 (counterexample): for a state not listed in the race-applicability
table for US Senate, a US Senate row with district 5 (not `statewide`)
produces no finding at all: the senate part of the district check is
conditional on the race table, contrary to the claim that senate rows are
always checked. -/
theorem districts_senate_conditional_counterexample :
    (Expectations.districts refsMinimal dfC6X "XX").toOption = some [] ∧
    rowSen5.office = some "US Senate" ∧ rowSen5.district = some "5" ∧
    rowSen5 ∈ dfC6X.rows ∧ some "5" ≠ some "statewide" := by
  refine ⟨rfl, rfl, rfl, by decide, by decide⟩

/-- C6 (amended): the district check flags, per distinct label, the
non-`statewide` districts of US President rows always, and of US Senate rows
exactly when the state is listed for US Senate in the race-applicability
table; for every office of the seat-count table whose entry for the state is
`n`, it flags every district label outside `['0']` when `n = 1`, else outside
the string integers `1..n`, and labels inside the valid set are never
reported for that office; in particular `0` is valid and `2` invalid for a
one-seat office. -/
theorem districts_check_labels (refs : Refs) (df : VDF) (sp : String)
    (senStates : List String) (fs : List Finding)
    (hsen : List.lookup "US Senate" refs.races = some senStates)
    (hok : Expectations.districts refs df sp = .ok fs) :
    ((sp ∈ senStates) → ∀ r ∈ df.rows, r.office = some "US Senate" →
      r.district ≠ some "statewide" →
      ∃ f ∈ fs, f.desc = .unexpectedSenateDistrict ∧ vOptS r.district ∈ f.values) ∧
    ((sp ∉ senStates) → ∀ f ∈ fs, f.desc ≠ .unexpectedSenateDistrict) ∧
    (∀ r ∈ df.rows, r.office = some "US President" → r.district ≠ some "statewide" →
      ∃ f ∈ fs, f.desc = .unexpectedPresidentDistrict ∧ vOptS r.district ∈ f.values) ∧
    (∀ office seats n, (office, seats) ∈ refs.district_numbers →
      List.lookup sp seats = some n →
      ∀ r ∈ df.rows, r.office = some office →
        (∀ d, r.district = some d → d ∉ Expectations.validDistricts n) →
        ∃ f ∈ fs, f.desc = .unexpectedDistrict office ∧ vOptS r.district ∈ f.values) ∧
    ((refs.district_numbers.map Prod.fst).Nodup →
      ∀ office seats n, (office, seats) ∈ refs.district_numbers →
      List.lookup sp seats = some n →
      ∀ d, d ∈ Expectations.validDistricts n →
        ∀ f ∈ fs, f.desc = .unexpectedDistrict office → vOptS (some d) ∉ f.values) ∧
    ("0" ∈ Expectations.validDistricts 1 ∧
      "2" ∉ Expectations.validDistricts 1) := by
  obtain ⟨senStates2, ofs, hsen2, hofs, rfl⟩ := districts_ok_decomp hok
  rw [hsen] at hsen2
  injection hsen2 with hsen2
  subst hsen2
  refine ⟨?_, ?_, ?_, ?_, ?_, by decide, by decide⟩
  · -- senate rows flagged when the state has a senate race
    intro hsp r hr hro hrd
    have hv : vOptS r.district ∈
        (Expectations.statewideUnexpected df "US Senate").map vOptS := by
      apply List.mem_map_of_mem
      apply List.mem_dedup.mpr
      exact List.mem_map_of_mem _ (List.mem_filter.mpr ⟨hr, by simp [hro, hrd]⟩)
    refine ⟨⟨.unexpectedSenateDistrict,
      (Expectations.statewideUnexpected df "US Senate").map vOptS⟩, ?_, rfl, hv⟩
    apply List.mem_append_left
    apply List.mem_append_left
    rw [if_pos hsp]
    exact mem_emit_iff.mpr ⟨List.ne_nil_of_mem hv, rfl⟩
  · -- no senate finding when the state has no senate race
    intro hsp f hf
    rcases List.mem_append.mp hf with hf | hf
    · rcases List.mem_append.mp hf with hf | hf
      · rw [if_neg hsp] at hf
        cases hf
      · rw [desc_of_mem_emit hf]
        intro h
        cases h
    · obtain ⟨o, _, _, _, _, hin⟩ := districtOfficeFindings_sound hofs f hf
      rw [desc_of_mem_emit hin]
      intro h
      cases h
  · -- president rows always flagged
    intro r hr hro hrd
    have hv : vOptS r.district ∈
        (Expectations.statewideUnexpected df "US President").map vOptS := by
      apply List.mem_map_of_mem
      apply List.mem_dedup.mpr
      exact List.mem_map_of_mem _ (List.mem_filter.mpr ⟨hr, by simp [hro, hrd]⟩)
    refine ⟨⟨.unexpectedPresidentDistrict,
      (Expectations.statewideUnexpected df "US President").map vOptS⟩, ?_, rfl, hv⟩
    apply List.mem_append_left
    apply List.mem_append_right
    exact mem_emit_iff.mpr ⟨List.ne_nil_of_mem hv, rfl⟩
  · -- invalid labels flagged per office of the seat-count table
    intro office seats n hmem hlk r hr hro hrd
    have hv : vOptS r.district ∈
        (Expectations.officeUnexpected df office n).map vOptS := by
      apply List.mem_map_of_mem
      apply List.mem_dedup.mpr
      apply List.mem_map_of_mem
      apply List.mem_filter.mpr
      refine ⟨List.mem_dedup.mpr (List.mem_filter.mpr ⟨hr, by simp [hro]⟩), ?_⟩
      cases hd : r.district with
      | none => rfl
      | some d => simp [hrd d hd]
    refine ⟨⟨.unexpectedDistrict office,
      (Expectations.officeUnexpected df office n).map vOptS⟩, ?_, rfl, hv⟩
    apply List.mem_append_right
    exact districtOfficeFindings_complete hofs office seats n hmem hlk _
      (mem_emit_iff.mpr ⟨List.ne_nil_of_mem hv, rfl⟩)
  · -- valid labels never reported for their office
    intro hnodup office seats n hmem hlk d hd f hf hdesc hval
    rcases List.mem_append.mp hf with hf | hf
    · rcases List.mem_append.mp hf with hf | hf
      · split at hf
        · rw [desc_of_mem_emit hf] at hdesc
          cases hdesc
        · cases hf
      · rw [desc_of_mem_emit hf] at hdesc
        cases hdesc
    · obtain ⟨o, s2, n2, hmem2, hlk2, hin⟩ := districtOfficeFindings_sound hofs f hf
      have hde := desc_of_mem_emit hin
      rw [hdesc] at hde
      injection hde with hde
      subst hde
      have hs2 : s2 = seats := assoc_nodup_unique hnodup hmem2 hmem
      subst hs2
      rw [hlk] at hlk2
      injection hlk2 with hlk2
      subst hlk2
      rw [(mem_emit_iff.mp hin).2] at hval
      obtain ⟨w, hw, hweq⟩ := List.mem_map.mp hval
      obtain rfl := vOptS_inj hweq.symm
      obtain ⟨r, hrf, hrd⟩ := List.mem_map.mp (List.mem_dedup.mp hw)
      have := (List.mem_filter.mp hrf).2
      rw [hrd] at this
      simp [hd] at this

/-- Witness for the amended C6 theorem at concrete references and table: the
US Senate row with district 5 is flagged, the State Senate row with district
2 is flagged, and the label 0 is never reported for State Senate. -/
theorem districts_check_labels_witness :
    (∃ f ∈ (Expectations.districts refsC6W dfC6W "AK").toOption.getD [],
      f.desc = .unexpectedSenateDistrict ∧ vOptS (some "5") ∈ f.values) ∧
    (∃ f ∈ (Expectations.districts refsC6W dfC6W "AK").toOption.getD [],
      f.desc = .unexpectedDistrict "State Senate" ∧ vOptS (some "2") ∈ f.values) ∧
    (∀ f ∈ (Expectations.districts refsC6W dfC6W "AK").toOption.getD [],
      f.desc = .unexpectedDistrict "State Senate" → vOptS (some "0") ∉ f.values) := by
  have h := districts_check_labels refsC6W dfC6W "AK" ["AK"]
    ((Expectations.districts refsC6W dfC6W "AK").toOption.getD []) rfl rfl
  refine ⟨?_, ?_, ?_⟩
  · exact h.1 (by decide) rowSen5 (by decide) rfl (by decide)
  · exact h.2.2.2.1 "State Senate" [("AK", 1)] 1 (by decide) rfl rowSS2 (by decide) rfl
      (fun d hd => by
        injection hd with hd
        subst hd
        decide)
  · exact fun f hf hdesc =>
      h.2.2.2.2.1 (by decide) "State Senate" [("AK", 1)] 1 (by decide) rfl "0"
        (by decide) f hf hdesc

/-- C7 (counterexample): running the full battery `check` over a table whose
partition tag is the out-of-set value `bogus` produces a report with no
partition-tag finding at all — `check` never invokes the `dataverse` rule —
although the `dataverse` rule itself would report the value. -/
theorem check_report_lacks_tag_finding :
    ((Expectations.check refsMinimal dfBogusTag "XX").toOption.map
      (fun fs => fs.all fun f => decide (f.desc ≠ .unexpectedDataverse))) = some true ∧
    some "bogus" ∈ dfBogusTag.rows.map VRow.dataverse ∧
    "bogus" ∉ Expectations.expected_dataverses ∧
    (Expectations.dataverse dfBogusTag).any
      (fun f => decide (VVal.s "bogus" ∈ f.values)) = true := by
  refine ⟨?_, ?_, ?_, ?_⟩ <;> decide

/-- C7 (amended): the full battery `check` produces a report that never
contains a partition-tag finding, for any references, table and state — the
`dataverse` rule is not among the rules `check` invokes; the `dataverse` rule
itself, run directly, reports exactly the tag values outside the fixed set
`president, senate, house, state, local, all` (missing tags included). -/
theorem check_omits_partition_tag_rule :
    (∀ (refs : Refs) (df : VDF) (sp : String) (fs : List Finding),
      Expectations.check refs df sp = .ok fs →
        ∀ f ∈ fs, f.desc ≠ .unexpectedDataverse) ∧
    (∀ (df : VDF) (v : Option String),
      (∃ f ∈ Expectations.dataverse df, vOptS v ∈ f.values) ↔
        (v ∈ df.rows.map VRow.dataverse ∧
          ∀ s, v = some s → s ∉ Expectations.expected_dataverses)) := by
  constructor
  · intro refs df sp fs h f hf
    unfold Expectations.check at h
    split at h
    · exact absurd h (by simp)
    · rename_i d hd
      injection h with h
      subst h
      simp only [List.mem_append] at hf
      rcases hf with ((((((((hf | hf) | hf) | hf) | hf) | hf) | hf) | hf) | hf) | hf
      · rcases columns_desc hf with h | h <;> (rw [h]; intro hx; cases hx)
      · rcases values_desc hf with ⟨c, h⟩ | ⟨c, h⟩ <;> (rw [h]; intro hx; cases hx)
      · obtain ⟨c, h⟩ := states_desc hf
        rw [h]; intro hx; cases hx
      · rcases counties_desc hf with h | h | h <;> (rw [h]; intro hx; cases hx)
      · rcases districts_desc hd hf with h | h | ⟨o, h⟩ <;> (rw [h]; intro hx; cases hx)
      · rcases offices_desc hf with h | h <;> (rw [h]; intro hx; cases hx)
      · rw [candidates_desc hf]; intro hx; cases hx
      · rw [writein_desc hf]; intro hx; cases hx
      · rcases parties_desc hf with h | h <;> (rw [h]; intro hx; cases hx)
      · rw [votes_desc hf]; intro hx; cases hx
  · intro df v
    unfold Expectations.dataverse
    rw [exists_mem_emit_values_iff]
    constructor
    · intro h
      obtain ⟨w, hw, hweq⟩ := List.mem_map.mp h
      obtain rfl := vOptS_inj hweq.symm
      have := List.mem_filter.mp hw
      refine ⟨this.1, ?_⟩
      intro s hs
      subst hs
      have h2 := this.2
      simp only [Bool.not_eq_true', decide_eq_false_iff_not] at h2
      exact h2
    · rintro ⟨hmem, hflag⟩
      apply List.mem_map.mpr
      refine ⟨v, List.mem_filter.mpr ⟨hmem, ?_⟩, rfl⟩
      rcases v with _ | s
      · rfl
      · simp only [Bool.not_eq_true', decide_eq_false_iff_not]
        exact hflag s rfl

/-- Witness for the amended C7 theorem: applied to the concrete bogus-tag
table, the battery report has no partition-tag finding, and the direct
`dataverse` rule reports the bogus value. -/
theorem check_omits_partition_tag_rule_witness :
    (∀ f ∈ (Expectations.check refsMinimal dfBogusTag "XX").toOption.getD [],
      f.desc ≠ .unexpectedDataverse) ∧
    (∃ f ∈ Expectations.dataverse dfBogusTag, vOptS (some "bogus") ∈ f.values) :=
  ⟨check_omits_partition_tag_rule.1 refsMinimal dfBogusTag "XX" _ rfl,
   (check_omits_partition_tag_rule.2 dfBogusTag (some "bogus")).mpr
     ⟨by decide, fun s hs => by
        injection hs with hs
        subst hs
        decide⟩⟩

/-! ## Claim theorem C10 -/

theorem dictGet_nil {β : Type} (k : String) : dictGet ([] : List (String × β)) k = none :=
  rfl

theorem dictGet_cons {β : Type} (p : String × β) (d : List (String × β)) (k : String) :
    dictGet (p :: d) k = if p.1 = k then some p.2 else dictGet d k := by
  by_cases h : p.1 = k <;> simp [dictGet, List.find?_cons, h]

theorem dictContains_iff {β : Type} (d : List (String × β)) (k : String) :
    dictContains d k = true ↔ (dictGet d k).isSome := by
  induction d with
  | nil => simp [dictContains, dictGet]
  | cons p rest ih =>
    by_cases h : p.1 = k
    · simp [dictContains, dictGet_cons, h]
    · simp only [dictContains, List.any_cons, Bool.or_eq_true, decide_eq_true_eq,
        dictGet_cons, if_neg h]
      simp only [dictContains, List.any_eq_true, decide_eq_true_eq] at ih
      simp [h, ih]

theorem dictGet_append_single {β : Type} (d : List (String × β)) (kv : String × β)
    (k : String) :
    dictGet (d ++ [kv]) k =
      (dictGet d k).orElse (fun _ => if kv.1 = k then some kv.2 else none) := by
  induction d with
  | nil => simp [dictGet_cons, dictGet, Option.orElse]
  | cons p rest ih =>
    by_cases h : p.1 = k
    · simp [List.cons_append, dictGet_cons, h, Option.orElse]
    · simp only [List.cons_append, dictGet_cons, if_neg h, ih]

theorem dictGet_foldl_addIfAbsent {β : Type} (file : List (String × β)) :
    ∀ (d : List (String × β)) (k : String),
      dictGet (file.foldl addIfAbsent d) k =
        (dictGet d k).orElse (fun _ => dictGet file k) := by
  induction file with
  | nil =>
    intro d k
    rw [List.foldl_nil]
    cases h : dictGet d k <;> simp [h, Option.orElse, dictGet_nil]
  | cons kv rest ih =>
    intro d k
    rw [List.foldl_cons, ih]
    unfold addIfAbsent
    by_cases hc : dictContains d kv.1 = true
    · rw [if_pos hc]
      by_cases hk : kv.1 = k
      · subst hk
        obtain ⟨v, hv⟩ := Option.isSome_iff_exists.mp ((dictContains_iff d kv.1).mp hc)
        simp [hv, Option.orElse]
      · rw [dictGet_cons, if_neg hk]
    · rw [if_neg hc]
      rw [dictGet_append_single, dictGet_cons]
      by_cases hk : kv.1 = k
      · subst hk
        have hnone : dictGet d kv.1 = none := by
          cases h : dictGet d kv.1 with
          | none => rfl
          | some v =>
            exact absurd ((dictContains_iff d kv.1).mpr (by simp [h])) hc
        simp [hnone, Option.orElse]
      · cases h : dictGet d k <;> simp [h, Option.orElse, if_neg hk]

/-- Lookup characterization of the inheritance fold: the dataset value when
present, else the first inherited value in file order. -/
theorem read_dataset_yaml_lookup {β : Type} (dataset_meta : List (String × β))
    (inherited : List (List (String × β))) (k : String) :
    dictGet (read_dataset_yaml dataset_meta inherited) k =
      (dictGet dataset_meta k).orElse
        (fun _ => inherited.findSome? (fun file => dictGet file k)) := by
  unfold read_dataset_yaml
  induction inherited generalizing dataset_meta with
  | nil =>
    cases h : dictGet dataset_meta k <;> simp [h, Option.orElse]
  | cons file rest ih =>
    rw [List.foldl_cons, ih, dictGet_foldl_addIfAbsent, List.findSome?_cons]
    cases h1 : dictGet dataset_meta k <;> cases h2 : dictGet file k <;>
      simp [Option.orElse]

/-- C10: in dataset-metadata inheritance resolution, a key present in the
dataset's own mapping keeps the dataset's value — inherited values never
overwrite existing keys — and a key absent from the dataset mapping takes the
value of the earliest-listed inherited file that contains it, because a key
is only added when not already present. -/
theorem read_dataset_yaml_precedence {β : Type} (dataset_meta : List (String × β))
    (inherited : List (List (String × β))) (k : String) :
    (∀ v, dictGet dataset_meta k = some v →
      dictGet (read_dataset_yaml dataset_meta inherited) k = some v) ∧
    (dictGet dataset_meta k = none →
      dictGet (read_dataset_yaml dataset_meta inherited) k =
        inherited.findSome? (fun file => dictGet file k)) := by
  constructor
  · intro v hv
    rw [read_dataset_yaml_lookup, hv]
    rfl
  · intro hnone
    rw [read_dataset_yaml_lookup, hnone]
    rfl

/-! ## Helper lemmas for the reconciliation totals (C9) -/

theorem sum_map_ite_add {κ : Type} [DecidableEq κ] {dd : List κ} (k0 : κ) (x : ℤ)
    (S : κ → ℤ) (hnd : dd.Nodup) (hmem : k0 ∈ dd) :
    (dd.map (fun k => (if k0 = k then x else 0) + S k)).sum = x + (dd.map S).sum := by
  induction dd with
  | nil => cases hmem
  | cons a rest ih =>
    rw [List.nodup_cons] at hnd
    rcases List.mem_cons.mp hmem with rfl | hmem2
    · have hrest : ∀ k ∈ rest, (if k0 = k then x else 0) + S k = S k := by
        intro k hk
        have hne : k0 ≠ k := by
          intro h
          rw [h] at hnd
          exact hnd.1 hk
        rw [if_neg hne, zero_add]
      rw [List.map_cons, List.sum_cons, if_pos rfl, List.map_congr_left hrest,
        List.map_cons, List.sum_cons]
      ring
    · have hka : k0 ≠ a := by
        intro h
        rw [← h] at hnd
        exact hnd.1 hmem2
      rw [List.map_cons, List.sum_cons, if_neg hka, zero_add, ih hnd.2 hmem2,
        List.map_cons, List.sum_cons]
      ring

theorem sum_fiber_dedup {α κ : Type} [DecidableEq κ] (key : α → κ) (val : α → ℤ) :
    ∀ rows : List α,
      (((rows.map key).dedup).map
        (fun k => ((rows.filter (fun r => decide (key r = k))).map val).sum)).sum =
        (rows.map val).sum := by
  intro rows
  induction rows with
  | nil => rfl
  | cons r rest ih =>
    rw [List.map_cons, List.map_cons, List.sum_cons]
    have hfc : ∀ k, ((r :: rest).filter (fun x => decide (key x = k))).map val =
        (if key r = k then [val r] else []) ++
          ((rest.filter (fun x => decide (key x = k))).map val) := by
      intro k
      by_cases h : key r = k <;> simp [List.filter_cons, h]
    by_cases hmem : key r ∈ rest.map key
    · rw [List.dedup_cons_of_mem hmem]
      calc ((rest.map key).dedup.map
            (fun k => (((r :: rest).filter (fun x => decide (key x = k))).map val).sum)).sum
          = ((rest.map key).dedup.map
            (fun k => (if key r = k then val r else 0) +
              ((rest.filter (fun x => decide (key x = k))).map val).sum)).sum := by
            apply congrArg
            apply List.map_congr_left
            intro k _
            rw [hfc k]
            by_cases h : key r = k <;> simp [h]
        _ = val r + ((rest.map key).dedup.map
            (fun k => ((rest.filter (fun x => decide (key x = k))).map val).sum)).sum :=
            sum_map_ite_add (key r) (val r) _ (List.nodup_dedup _)
              (List.mem_dedup.mpr hmem)
        _ = val r + (rest.map val).sum := by rw [ih]
    · rw [List.dedup_cons_of_not_mem hmem, List.map_cons, List.sum_cons]
      have h1 : (((r :: rest).filter (fun x => decide (key x = key r))).map val).sum =
          val r := by
        rw [hfc (key r), if_pos rfl]
        have : rest.filter (fun x => decide (key x = key r)) = [] := by
          rw [List.filter_eq_nil_iff]
          intro a ha
          simp only [decide_eq_true_eq]
          exact fun h => hmem (List.mem_map.mpr ⟨a, ha, h⟩)
        simp [this]
      have h2 : ((rest.map key).dedup.map
          (fun k => (((r :: rest).filter (fun x => decide (key x = k))).map val).sum)).sum =
          ((rest.map key).dedup.map
            (fun k => ((rest.filter (fun x => decide (key x = k))).map val).sum)).sum := by
        apply congrArg
        apply List.map_congr_left
        intro k hk
        have hne : key r ≠ k := by
          intro h
          subst h
          exact hmem (List.mem_dedup.mp hk)
        rw [hfc k, if_neg hne]
        simp
      rw [h1, h2, ih]

theorem groupTotals_values_sum (rows : List (String × String × ℤ)) :
    ((groupTotals rows).map (fun t => t.2)).sum =
      (rows.map (fun r => r.2.2)).sum := by
  unfold groupTotals
  rw [List.map_map]
  rw [List.Perm.sum_eq ((List.perm_insertionSort _ _).map _)]
  exact sum_fiber_dedup (fun r => (r.1, r.2.1)) (fun r => r.2.2) rows

theorem groupTotals_keys_nodup (rows : List (String × String × ℤ)) :
    ((groupTotals rows).map (fun t => t.1)).Nodup := by
  unfold groupTotals
  rw [List.map_map]
  apply List.Nodup.map
  · intro a b h
    simpa [Function.comp] using h
  · exact ((List.perm_insertionSort _ _).nodup_iff).mpr (List.nodup_dedup _)

theorem lookupTotal_cons (p : (String × String) × ℤ) (ts : List ((String × String) × ℤ))
    (k : String × String) :
    lookupTotal (p :: ts) k = if p.1 = k then some p.2 else lookupTotal ts k := by
  by_cases h : p.1 = k <;> simp [lookupTotal, List.find?_cons, h]

theorem lookupTotal_eq_none (ts : List ((String × String) × ℤ)) (k : String × String) :
    lookupTotal ts k = none ↔ k ∉ ts.map (fun t => t.1) := by
  induction ts with
  | nil => simp [lookupTotal]
  | cons p rest ih =>
    by_cases h : p.1 = k
    · simp [lookupTotal_cons, h]
    · simp only [lookupTotal_cons, if_neg h, List.map_cons, List.mem_cons, ih]
      constructor
      · rintro hk (hk2 | hk2)
        · exact h hk2.symm
        · exact hk hk2
      · intro hk
        exact fun hk2 => hk (.inr hk2)

theorem filterMap_getD_sum {α : Type} (f : α → Option ℤ) (l : List α) :
    (l.filterMap f).sum = (l.map (fun a => (f a).getD 0)).sum := by
  induction l with
  | nil => rfl
  | cons a rest ih => cases h : f a <;> simp [List.filterMap_cons, h, ih]

theorem mergeOuter_precinct_filterMap (L R : List ((String × String) × ℤ)) :
    (mergeOuter L R).filterMap TotalsRow.precinct_votes = L.map (fun p => p.2) := by
  unfold mergeOuter
  rw [List.filterMap_append]
  have h1 : (L.map (fun p =>
      (⟨some p.1.1, p.1.2, some p.2, lookupTotal R p.1, none⟩ : TotalsRow))).filterMap
        TotalsRow.precinct_votes = L.map (fun p => p.2) := by
    induction L with
    | nil => rfl
    | cons p rest ih => simp [List.filterMap_cons, ih]
  have h2 : ∀ rf : List ((String × String) × ℤ), (rf.map (fun p =>
      (⟨some p.1.1, p.1.2, none, some p.2, none⟩ : TotalsRow))).filterMap
        TotalsRow.precinct_votes = [] := by
    intro rf
    induction rf with
    | nil => rfl
    | cons p rest ih => simp [List.filterMap_cons, ih]
  rw [h1, h2, List.append_nil]

theorem sum_lookup_cons (r0 : (String × String) × ℤ) (Rr : List ((String × String) × ℤ))
    (hr0 : r0.1 ∉ Rr.map (fun t => t.1)) (L : List ((String × String) × ℤ))
    (hL : (L.map (fun t => t.1)).Nodup) :
    (L.map (fun l => (lookupTotal (r0 :: Rr) l.1).getD 0)).sum =
      (if r0.1 ∈ L.map (fun t => t.1) then r0.2 else 0) +
        (L.map (fun l => (lookupTotal Rr l.1).getD 0)).sum := by
  induction L with
  | nil => simp
  | cons l0 Lr ih =>
    rw [List.map_cons, List.nodup_cons] at hL
    have hih := ih hL.2
    by_cases h : r0.1 = l0.1
    · have hnone : lookupTotal Rr l0.1 = none :=
        (lookupTotal_eq_none _ _).mpr (by rw [← h]; exact hr0)
      have hmem2 : r0.1 ∉ Lr.map (fun t => t.1) := by
        rw [h]
        exact hL.1
      rw [if_neg hmem2] at hih
      have hmem3 : r0.1 ∈ (l0 :: Lr).map (fun t => t.1) := by
        rw [List.map_cons, h]
        exact List.mem_cons_self _ _
      rw [if_pos hmem3]
      simp only [List.map_cons, List.sum_cons, lookupTotal_cons, if_pos h, hnone,
        Option.getD_some, Option.getD_none] at hih ⊢
      omega
    · simp only [List.map_cons, List.sum_cons, lookupTotal_cons, if_neg h] at hih ⊢
      have hiff : r0.1 ∈ l0.1 :: Lr.map (fun t => t.1) ↔
          r0.1 ∈ Lr.map (fun t => t.1) := by
        rw [List.mem_cons]
        exact ⟨fun hk => hk.resolve_left h, fun hk => .inr hk⟩
      by_cases hm : r0.1 ∈ Lr.map (fun t => t.1)
      · rw [if_pos hm] at hih
        rw [if_pos (hiff.mpr hm)]
        omega
      · rw [if_neg hm] at hih
        rw [if_neg (fun hk => hm (hiff.mp hk))]
        omega

theorem mergeOuter_district_sum (L R : List ((String × String) × ℤ))
    (hL : (L.map (fun t => t.1)).Nodup) (hR : (R.map (fun t => t.1)).Nodup) :
    ((mergeOuter L R).filterMap TotalsRow.district_votes).sum =
      (R.map (fun t => t.2)).sum := by
  unfold mergeOuter
  rw [List.filterMap_append, List.sum_append]
  have h1 : ∀ lf : List ((String × String) × ℤ), (lf.map (fun p =>
      (⟨some p.1.1, p.1.2, some p.2, lookupTotal R p.1, none⟩ : TotalsRow))).filterMap
        TotalsRow.district_votes = lf.filterMap (fun p => lookupTotal R p.1) := by
    intro lf
    induction lf with
    | nil => rfl
    | cons p rest ih =>
      cases hlk : lookupTotal R p.1 with
      | none => simp [List.filterMap_cons, hlk, ih]
      | some v => simp [List.filterMap_cons, hlk, ih]
  have h2 : ∀ rf : List ((String × String) × ℤ), (rf.map (fun p =>
      (⟨some p.1.1, p.1.2, none, some p.2, none⟩ : TotalsRow))).filterMap
        TotalsRow.district_votes = rf.map (fun p => p.2) := by
    intro rf
    induction rf with
    | nil => rfl
    | cons p rest ih => simp [List.filterMap_cons, ih]
  rw [h1, h2 _, filterMap_getD_sum]
  clear h1 h2
  induction R with
  | nil =>
    have hz : ∀ l ∈ L, (lookupTotal ([] : List ((String × String) × ℤ)) l.1).getD 0 = 0 := by
      intro l _
      rfl
    simp [List.map_congr_left hz]
  | cons r0 Rr ih =>
    rw [List.map_cons, List.nodup_cons] at hR
    have hih := ih hR.2
    rw [sum_lookup_cons r0 Rr hR.1 L hL, List.filter_cons]
    by_cases hmem : r0.1 ∈ L.map (fun t => t.1)
    · have hdec : (decide (lookupTotal L r0.1 = none)) = false := by
        rw [decide_eq_false_iff_not]
        intro hnone
        exact (lookupTotal_eq_none _ _).mp hnone hmem
      rw [hdec, if_pos hmem, List.map_cons, List.sum_cons, if_neg Bool.false_ne_true]
      omega
    · have hdec : (decide (lookupTotal L r0.1 = none)) = true := by
        rw [decide_eq_true_eq]
        exact (lookupTotal_eq_none _ _).mpr hmem
      rw [hdec, if_neg hmem, List.map_cons, List.sum_cons, if_pos rfl,
        List.map_cons, List.sum_cons]
      omega

/-- The last row of the totals table is always the synthetic `Total` row: its
precinct total is the sum of all partition votes, its district total is the sum
of the constituency votes surviving the year-2016 and state filters, and its
difference column is the former minus the latter. -/
theorem compare_aggregates_total_row (precincts : List PRow) (districtsCsv : List DRow) :
    (compare_aggregates precincts districtsCsv).getLast? =
      some ⟨none, "Total", some ((precincts.map PRow.votes).sum),
        some ((((districtsCsv.filter (fun d => decide (d.year = 2016))).filter
          (fun d => decide (d.state ∈ precincts.map PRow.state))).map
            DRow.candidatevotes).sum),
        some ((precincts.map PRow.votes).sum -
          (((districtsCsv.filter (fun d => decide (d.year = 2016))).filter
            (fun d => decide (d.state ∈ precincts.map PRow.state))).map
              DRow.candidatevotes).sum)⟩ := by
  simp only [compare_aggregates]
  rw [List.map_append, List.map_cons, List.map_nil, List.getLast?_concat,
    mergeOuter_precinct_filterMap,
    mergeOuter_district_sum _ _ (groupTotals_keys_nodup _) (groupTotals_keys_nodup _),
    groupTotals_values_sum, groupTotals_values_sum, List.map_map, List.map_map,
    List.map_map]
  rfl

/-- C9 counterexample: the code applies no whitespace-collapse transform.  A
constituency candidate written with a doubled space, `"Jane  Doe"`, is left
unchanged by the source normalization chain (while the spec's chain with
whitespace collapsing would map it to `"Jane Doe"`), so it fails to join with
the partition row for `"Jane Doe"` and the output keeps two unjoined rows. -/
theorem reconciliation_no_whitespace_collapse :
    normalizeCandidate "Jane  Doe" = "Jane  Doe" ∧
    normalizeCandidateClaim "Jane  Doe" = "Jane Doe" ∧
    compare_aggregates [⟨"X", "Jane Doe", "np", 100⟩]
        [⟨2016, "X", "Jane  Doe", "np", 50⟩] =
      [⟨some "X", "Jane Doe", some 100, none, none⟩,
       ⟨some "X", "Jane  Doe", none, some 50, none⟩,
       ⟨none, "Total", some 100, some 50, some 50⟩] :=
  ⟨by decide, by decide, by decide⟩

/-- C9: the reconciliation normalizes constituency candidate names with the
reorder / middle-initial / literal-strip transforms (but no whitespace
collapse), groups both tables by `(state, candidate)` summing votes,
outer-joins, and appends a `Total` row whose difference column is the
partition total minus the constituency total.  In particular
`"Doe, Jane M."` normalizes to `"Jane Doe"`, so the claim's example joins as
stated, and in general the last output row is the `Total` row with the two
column sums and their difference. -/
theorem reconciliation_normalize_join_total
    (precincts : List PRow) (districtsCsv : List DRow) :
    normalizeCandidate "Doe, Jane M." = "Jane Doe" ∧
    compare_aggregates [⟨"X", "Jane Doe", "np", 100⟩]
        [⟨2016, "X", "Doe, Jane M.", "np", 50⟩] =
      [⟨some "X", "Jane Doe", some 100, some 50, some 50⟩,
       ⟨none, "Total", some 100, some 50, some 50⟩] ∧
    (compare_aggregates precincts districtsCsv).getLast? =
      some ⟨none, "Total", some ((precincts.map PRow.votes).sum),
        some ((((districtsCsv.filter (fun d => decide (d.year = 2016))).filter
          (fun d => decide (d.state ∈ precincts.map PRow.state))).map
            DRow.candidatevotes).sum),
        some ((precincts.map PRow.votes).sum -
          (((districtsCsv.filter (fun d => decide (d.year = 2016))).filter
            (fun d => decide (d.state ∈ precincts.map PRow.state))).map
              DRow.candidatevotes).sum)⟩ :=
  ⟨by decide, by decide, compare_aggregates_total_row precincts districtsCsv⟩

/-- Witness for the C10 theorem at a concrete mapping: the dataset's own
`title` survives, `author` comes from the earliest inherited file, and `year`
from the only file defining it. -/
theorem read_dataset_yaml_precedence_witness :
    dictGet (read_dataset_yaml metaBase metaFiles) "title" = some 1 ∧
    dictGet (read_dataset_yaml metaBase metaFiles) "author" = some 3 ∧
    dictGet (read_dataset_yaml metaBase metaFiles) "year" = some 5 :=
  ⟨(read_dataset_yaml_precedence metaBase metaFiles "title").1 1 rfl,
   by
    rw [(read_dataset_yaml_precedence metaBase metaFiles "author").2 rfl]
    rfl,
   by
    rw [(read_dataset_yaml_precedence metaBase metaFiles "year").2 rfl]
    rfl⟩

end Medsl
